import Mathlib

/-!
# my_coroutine_lib: timer manager, scheduler worker loop and fd event contexts

A shallow embedding of `fiber_lib/4_timer/timer.{h,cc}`, of the task queue
part of `fiber_lib/3_scheduler/scheduler.{h,cc}` and of the `FdContext` methods
of `fiber_lib/5_iomanager/ioscheduler.{h,cc}`.

Modelling conventions.

* A `std::shared_ptr<Timer>` is an index into the list `objs` of all `Timer`
  objects allocated so far (`std::make_shared` appends a new object).
* A `std::chrono::system_clock::time_point` is an `Int` count of clock ticks;
  `tpm` is the number of clock ticks in one millisecond (the clock period is
  fixed by the platform, so it is a parameter).  A period is a `uint64_t`
  and `std::chrono::milliseconds(m_ms)` converts it to a signed 64-bit count
  (`toInt64`, `msTicks`).  Arithmetic on tick counts is signed and its overflow
  is undefined behaviour: the model computes in `Int` and covers the
  executions in which the tick counts stay within 64 bits.
* Every call of `std::chrono::system_clock::now()` is an explicit argument.
* A `std::function<void()>` is `Option Cb`: `none` is the empty function and
  `some c` is the callable with identity `c`.
* `std::set<std::shared_ptr<Timer>, Timer::Comparator>` is the list of its
  elements in iteration order.
* A `Scheduler*` is an index into a list of schedulers, and an `Event` mask is
  the number whose bits are those of the 32-bit `int`.
-/

namespace my_coroutine_lib

/-- Identity of a callable object stored in a `std::function<void()>`. -/
abbrev Cb := Nat

/-- Fields of `class Timer` (timer.h 30-44); `m_manager` is the single manager
of the model. -/
structure Timer where
  m_recurring : Bool
  m_ms : Nat
  m_next : Int
  m_cb : Option Cb
deriving DecidableEq, Repr

instance : Inhabited Timer := ⟨⟨false, 0, 0, none⟩⟩

/-- Fields of `class TimerManager` (timer.h 88-92) together with the heap of
`Timer` objects that the shared pointers refer to. -/
structure TimerManager where
  objs : List Timer
  m_timers : List Nat
  m_tickled : Bool
  m_lastTime : Int
deriving DecidableEq, Repr

/-- Dereference of a timer pointer. -/
def TimerManager.deref (s : TimerManager) (p : Nat) : Timer :=
  s.objs.getD p default

/-- Assignment through a timer pointer. -/
def TimerManager.store (s : TimerManager) (p : Nat) (t : Timer) : TimerManager :=
  { s with objs := s.objs.set p t }

/-- Comparison `Timer::Comparator` (timer.h 48-53): only `m_next` is compared. -/
def Comparator (s : TimerManager) (lhs rhs : Nat) : Bool :=
  decide ((s.deref lhs).m_next < (s.deref rhs).m_next)

/-- Result of `std::set::insert`: the elements afterwards, the position of the
returned iterator and whether the element was inserted. -/
structure InsertResult where
  elems : List Nat
  pos : Nat
  inserted : Bool
deriving DecidableEq, Repr

/-- Unique-key insertion `std::set::insert` under a comparison `lt`: an element
equivalent to `p` (neither is less than the other) blocks the insertion and the
iterator to it is returned. -/
def setInsert (lt : Nat → Nat → Bool) : List Nat → Nat → InsertResult
  | [], p => ⟨[p], 0, true⟩
  | x :: xs, p =>
    if lt p x then ⟨p :: x :: xs, 0, true⟩
    else if lt x p then
      let r := setInsert lt xs p
      ⟨x :: r.elems, r.pos + 1, r.inserted⟩
    else ⟨x :: xs, 0, false⟩

/-- Lookup `std::set::find` under a comparison `lt`: position of the first
element not less than `p` when `p` is not less than it either, else `end()`. -/
def setFind (lt : Nat → Nat → Bool) : List Nat → Nat → Option Nat
  | [], _ => none
  | x :: xs, p =>
    if lt x p then (setFind lt xs p).map (· + 1)
    else if lt p x then none
    else some 0

/-- Constructor `Timer::Timer(ms, cb, recurring, manager)`.
Modelled from the spec: the constructor is declared in timer.h 28 but its
definition is not part of the sources; the spec says that `addTimer`
"computes `deadline = now + ms`". -/
def Timer.ctor (tpm : Nat) (now : Int) (ms : Nat) (cb : Option Cb) (recurring : Bool) : Timer :=
  ⟨recurring, ms, now + (ms : Int) * (tpm : Int), cb⟩

/-- Constructor `TimerManager::TimerManager()` (timer.cc 67-69). -/
def TimerManager.init (now : Int) : TimerManager :=
  ⟨[], [], false, now⟩

/-- Method `TimerManager::addTimer(std::shared_ptr<Timer>)` (timer.cc 146-161).
The second component tells whether `onTimerInsertedAtFront()` was invoked. -/
def TimerManager.addTimerPtr (s : TimerManager) (timer : Nat) : TimerManager × Bool :=
  let r := setInsert (Comparator s) s.m_timers timer
  let at_front := r.pos == 0 && !s.m_tickled
  ({ s with m_timers := r.elems, m_tickled := if at_front then true else s.m_tickled }, at_front)

/-- Outcome of `TimerManager::addTimer(ms, cb, recurring)`: the returned
pointer (`none` is `nullptr`), the manager afterwards, and whether
`onTimerInsertedAtFront()` was invoked. -/
structure AddResult where
  ret : Option Nat
  mgr : TimerManager
  hook : Bool
deriving DecidableEq, Repr

/-- Method `TimerManager::addTimer(ms, cb, recurring)` (timer.cc 75-83). -/
def TimerManager.addTimer (tpm : Nat) (s : TimerManager) (now : Int) (ms : Nat)
    (cb : Option Cb) (recurring : Bool) : AddResult :=
  if ms = 0 ∨ cb = none then ⟨none, s, false⟩
  else
    let timer := s.objs.length
    let s1 : TimerManager := { s with objs := s.objs ++ [Timer.ctor tpm now ms cb recurring] }
    let r := s1.addTimerPtr timer
    ⟨some timer, r.1, r.2⟩

/-- Method `Timer::cancel()` (timer.cc 5-20) called on the timer `this`. -/
def Timer.cancel (s : TimerManager) (this : Nat) : Bool × TimerManager :=
  if (s.deref this).m_cb = none then (false, s)
  else
    let s1 := s.store this { s.deref this with m_cb := none }
    match setFind (Comparator s1) s1.m_timers this with
    | some i => (true, { s1 with m_timers := s1.m_timers.eraseIdx i })
    | none => (true, s1)

/-- Conversion of a `uint64_t` to the signed 64-bit count of a
`std::chrono::milliseconds`: the value modulo `2^64`, read in two's complement. -/
def toInt64 (x : Nat) : Int :=
  if x % 2 ^ 64 < 2 ^ 63 then ((x % 2 ^ 64 : Nat) : Int)
  else ((x % 2 ^ 64 : Nat) : Int) - 2 ^ 64

/-- The duration `std::chrono::milliseconds(ms)` of a `uint64_t ms` in clock
ticks, as it is added to or subtracted from a `time_point`. -/
def msTicks (tpm : Nat) (ms : Nat) : Int :=
  toInt64 ms * (tpm : Int)

/-- A tick count that the signed 64-bit representation of the clock holds. -/
def inInt64 (x : Int) : Prop :=
  -(2 : Int) ^ 63 ≤ x ∧ x < (2 : Int) ^ 63

instance (x : Int) : Decidable (inInt64 x) := by
  unfold inInt64; infer_instance

/-- Method `Timer::refresh()` (timer.cc 23-39) called on the timer `this`. -/
def Timer.refresh (tpm : Nat) (s : TimerManager) (now : Int) (this : Nat) : Bool × TimerManager :=
  if (s.deref this).m_cb = none then (false, s)
  else
    match setFind (Comparator s) s.m_timers this with
    | none => (false, s)
    | some i =>
      let s1 : TimerManager := { s with m_timers := s.m_timers.eraseIdx i }
      let s2 := s1.store this { s1.deref this with m_next := now + msTicks tpm (s1.deref this).m_ms }
      (true, { s2 with m_timers := (setInsert (Comparator s2) s2.m_timers this).elems })

/-- Outcome of `Timer::reset`: return value, manager afterwards, and whether
`onTimerInsertedAtFront()` was invoked. -/
structure ResetResult where
  ret : Bool
  mgr : TimerManager
  hook : Bool
deriving DecidableEq, Repr

/-- Method `Timer::reset(ms, from_now)` (timer.cc 41-65) called on the timer
`this`. -/
def Timer.reset (tpm : Nat) (s : TimerManager) (now : Int) (this : Nat) (ms : Nat)
    (from_now : Bool) : ResetResult :=
  if ms = (s.deref this).m_ms ∧ from_now = false then ⟨true, s, false⟩
  else if (s.deref this).m_cb = none then ⟨false, s, false⟩
  else
    match setFind (Comparator s) s.m_timers this with
    | none => ⟨false, s, false⟩
    | some i =>
      let s1 : TimerManager := { s with m_timers := s.m_timers.eraseIdx i }
      let start : Int :=
        if from_now then now
        else (s1.deref this).m_next - msTicks tpm (s1.deref this).m_ms
      let s2 := s1.store this { s1.deref this with m_ms := ms }
      let s3 := s2.store this { s2.deref this with m_next := start + msTicks tpm (s2.deref this).m_ms }
      let r := s3.addTimerPtr this
      ⟨true, r.1, r.2⟩

/-- Method `TimerManager::getNextTimeout()` (timer.cc 96-115): the returned
`uint64_t` and the manager afterwards. -/
def TimerManager.getNextTimeout (tpm : Nat) (s : TimerManager) (now : Int) : Nat × TimerManager :=
  let s1 : TimerManager := { s with m_tickled := false }
  match s1.m_timers with
  | [] => (2 ^ 64 - 1, s1)
  | hd :: _ =>
    let time := (s1.deref hd).m_next
    if now ≥ time then (0, s1)
    else (Int.toNat (Int.emod (Int.tdiv (time - now) (tpm : Int)) (2 ^ 64)), s1)

/-- Method `TimerManager::detectClockChange()` (timer.cc 163-171). -/
def TimerManager.detectClockChange (tpm : Nat) (s : TimerManager) (now : Int) : Bool × TimerManager :=
  let changed := decide (now < s.m_lastTime - (60 * 60 * 1000 : Int) * (tpm : Int))
  (changed, { s with m_lastTime := now })

/-- Method `TimerManager::hasTimer()` (timer.cc 141-144). -/
def TimerManager.hasTimer (s : TimerManager) : Bool :=
  !s.m_timers.isEmpty

/-- State of a `std::function` after `std::move` took its target: the standard
leaves it valid but unspecified; libstdc++, libc++ and MSVC leave it empty. -/
def movedFrom (_ : Option Cb) : Option Cb := none

/-- One pass through the body of the `while` loop of
`TimerManager::listExpiredCb` (timer.cc 125-138); `none` when the loop
condition is false. -/
def TimerManager.listExpiredStep (tpm : Nat) (now : Int) (rollover : Bool)
    (s : TimerManager) (cbs : List (Option Cb)) : Option (TimerManager × List (Option Cb)) :=
  match s.m_timers with
  | [] => none
  | timer :: rest =>
    if rollover || decide ((s.deref timer).m_next ≤ now) then
      let s1 : TimerManager := { s with m_timers := rest }
      let cbs1 := cbs ++ [(s1.deref timer).m_cb]
      let s2 := s1.store timer { s1.deref timer with m_cb := movedFrom (s1.deref timer).m_cb }
      if (s2.deref timer).m_recurring then
        let s3 := s2.store timer
          { s2.deref timer with m_next := now + msTicks tpm (s2.deref timer).m_ms }
        some ({ s3 with m_timers := (setInsert (Comparator s3) s3.m_timers timer).elems }, cbs1)
      else
        some (s2.store timer { s2.deref timer with m_cb := none }, cbs1)
    else none

/-- The `while` loop of `TimerManager::listExpiredCb` run for at most `fuel`
passes: `none` when the loop is still running after `fuel` passes. -/
def TimerManager.listExpiredLoop (tpm : Nat) (now : Int) (rollover : Bool) :
    Nat → TimerManager → List (Option Cb) → Option (TimerManager × List (Option Cb))
  | 0, _, _ => none
  | fuel + 1, s, cbs =>
    match s.listExpiredStep tpm now rollover cbs with
    | none => some (s, cbs)
    | some (s1, cbs1) => listExpiredLoop tpm now rollover fuel s1 cbs1

/-- Method `TimerManager::listExpiredCb(cbs)` (timer.cc 117-139): `now` is the
clock reading taken on entry, `now2` the one taken by `detectClockChange`;
`none` when the loop has not finished within `fuel` passes. -/
def TimerManager.listExpiredCb (tpm : Nat) (fuel : Nat) (s : TimerManager) (now now2 : Int)
    (cbs : List (Option Cb)) : Option (TimerManager × List (Option Cb)) :=
  let d := s.detectClockChange tpm now2
  TimerManager.listExpiredLoop tpm now d.1 fuel d.2 cbs

/-! ## Scheduler: task queue and worker loop -/

/-- States of a fiber, `Fiber::State` (fiber.h 18-22). -/
inductive FiberState where
  | READY
  | RUNNING
  | TERM
deriving DecidableEq, Repr

/-- Record `Scheduler::ScheduleTask` (scheduler.h 66-79): a fiber pointer
(`none` is `nullptr`), a callback and a thread id. -/
structure ScheduleTask where
  fiber : Option Nat
  cb : Option Cb
  thread : Int
deriving DecidableEq, Repr

/-- The default constructor `ScheduleTask()`, also the state after `reset()`
(scheduler.h 71, 74-78). -/
def ScheduleTask.reset : ScheduleTask := ⟨none, none, -1⟩

/-- Argument of the template `scheduleLock`: a fiber pointer or a callback. -/
inductive FiberOrcb where
  | fiber (f : Option Nat)
  | cb (c : Option Cb)
deriving DecidableEq, Repr

/-- The two constructors `ScheduleTask(f, t)` and `ScheduleTask(c, t)`
(scheduler.h 72-73). -/
def ScheduleTask.ofFiberOrcb : FiberOrcb → Int → ScheduleTask
  | FiberOrcb.fiber f, t => ⟨f, none, t⟩
  | FiberOrcb.cb c, t => ⟨none, c, t⟩

/-- The fields of `class Scheduler` that the task queue code touches
(scheduler.h 85, 88-89). -/
structure Scheduler where
  m_tasks : List ScheduleTask
  m_activeThreadCount : Nat
  m_idleThreadCount : Nat
deriving DecidableEq, Repr

/-- Method `Scheduler::scheduleLock(fc, thread)` (scheduler.h 30-46); the second
component tells whether `tickle()` was called. -/
def Scheduler.scheduleLock (s : Scheduler) (fc : FiberOrcb) (thread : Int) : Scheduler × Bool :=
  let need_tickle := s.m_tasks.isEmpty
  let task := ScheduleTask.ofFiberOrcb fc thread
  if task.fiber.isSome || task.cb.isSome then
    ({ s with m_tasks := s.m_tasks ++ [task] }, need_tickle)
  else (s, need_tickle)

/-- Outcome of the scan of the task queue: the local `task`, the queue
afterwards, the flag `tickle_me`, and whether a task was taken out. -/
structure ScanResult where
  task : ScheduleTask
  m_tasks : List ScheduleTask
  tickle_me : Bool
  adopted : Bool
deriving DecidableEq, Repr

/-- The scan of `Scheduler::run` under the queue mutex (scheduler.cc 92-110) by
the worker `thread_id`; `none` when `assert(it->fiber || it->cb)` fails. -/
def scanTasks (thread_id : Int) : List ScheduleTask → Option ScanResult
  | [] => some ⟨ScheduleTask.reset, [], false, false⟩
  | t :: ts =>
    if t.thread ≠ -1 ∧ t.thread ≠ thread_id then
      (scanTasks thread_id ts).map fun r => { r with m_tasks := t :: r.m_tasks, tickle_me := true }
    else if t.fiber.isSome || t.cb.isSome then
      some ⟨t, ts, !ts.isEmpty, true⟩
    else none

/-- Calls that one pass of the worker loop makes, in order. -/
inductive RunEvent where
  | tickle
  | resumeFiber (f : Nat)
  | resumeCb (c : Cb)
  | idleCountInc
  | resumeIdle
  | idleCountDec
deriving DecidableEq, Repr

/-- Outcome of one pass of the worker loop: scheduler fields, the calls made,
and whether the loop was left by `break`. -/
structure IterResult where
  sched : Scheduler
  events : List RunEvent
  exited : Bool
deriving DecidableEq, Repr

/-- The branch of `Scheduler::run` taken when no task was adopted
(scheduler.cc 135-149).  The statements `m_idleThreadCount++;
idle_fiber->resume(); m_idleThreadCount--;` stand after the `break` inside the
block of `if(idle_fiber->getState() == Fiber::TERM)`, so they are never
executed. -/
def idleBranch (idleState : FiberState) (s : Scheduler) : IterResult :=
  if idleState = FiberState.TERM then ⟨s, [], true⟩
  else ⟨s, [], false⟩

/-- One pass of the `while(true)` loop of `Scheduler::run` (scheduler.cc 86-150)
on the worker `thread_id`; `fiberState` gives the state of each fiber and
`idleState` that of the idle fiber.  A resumed fiber runs outside the model: the
call is recorded as an event.  `none` when the assertion of the scan fails. -/
def runIteration (thread_id : Int) (fiberState : Nat → FiberState) (idleState : FiberState)
    (s : Scheduler) : Option IterResult :=
  match scanTasks thread_id s.m_tasks with
  | none => none
  | some r =>
    let s1 : Scheduler :=
      { s with m_tasks := r.m_tasks,
               m_activeThreadCount := if r.adopted then s.m_activeThreadCount + 1
                                      else s.m_activeThreadCount }
    let ev : List RunEvent := if r.tickle_me then [RunEvent.tickle] else []
    match r.task.fiber, r.task.cb with
    | some f, _ =>
      some ⟨{ s1 with m_activeThreadCount := s1.m_activeThreadCount - 1 },
        ev ++ (if fiberState f ≠ FiberState.TERM then [RunEvent.resumeFiber f] else []), false⟩
    | none, some c =>
      some ⟨{ s1 with m_activeThreadCount := s1.m_activeThreadCount - 1 },
        ev ++ [RunEvent.resumeCb c], false⟩
    | none, none =>
      let r1 := idleBranch idleState s1
      some ⟨r1.sched, ev ++ r1.events, r1.exited⟩

/-- Consecutive passes of the worker loop seen from the task queue: the tasks
that the worker `thread_id` adopts in at most `n` passes, in order, when the
tasks it runs add nothing to the queue. -/
def adoptSeq (thread_id : Int) : Nat → List ScheduleTask → Option (List ScheduleTask)
  | 0, _ => some []
  | n + 1, q =>
    match scanTasks thread_id q with
    | none => none
    | some r =>
      if r.adopted then (adoptSeq thread_id n r.m_tasks).map (r.task :: ·)
      else some []

/-- The task queue built from the empty queue by a sequence of `scheduleLock`
calls. -/
def buildQueue (calls : List (FiberOrcb × Int)) : List ScheduleTask :=
  (calls.foldl (fun s c => (s.scheduleLock c.1 c.2).1) (⟨[], 0, 0⟩ : Scheduler)).m_tasks

/-- The timer set is strictly ascending in `m_next`: the invariant that
`std::set` keeps under `Timer::Comparator`. -/
def TimerManager.Sorted (s : TimerManager) : Prop :=
  s.m_timers.Pairwise (fun a b => (s.deref a).m_next < (s.deref b).m_next)

instance (s : TimerManager) : Decidable s.Sorted := by
  unfold TimerManager.Sorted; infer_instance

/-- A task that the worker `thread_id` may adopt: the scan of `Scheduler::run`
skips a task exactly when `it->thread != -1 && it->thread != thread_id`
(scheduler.cc 95). -/
def ScheduleTask.eligible (thread_id : Int) (t : ScheduleTask) : Bool :=
  !(decide (t.thread ≠ -1 ∧ t.thread ≠ thread_id))

/-- A task that holds a fiber or a callback, the condition
`task.fiber || task.cb` (scheduler.h 38, scheduler.cc 102). -/
def ScheduleTask.nonEmpty (t : ScheduleTask) : Bool :=
  t.fiber.isSome || t.cb.isSome

/-- Every pointer in the timer set refers to an allocated `Timer` object. -/
def TimerManager.Valid (s : TimerManager) : Prop :=
  ∀ p ∈ s.m_timers, p < s.objs.length

instance (s : TimerManager) : Decidable s.Valid := by
  unfold TimerManager.Valid; infer_instance

/-- Calls on a timer manager and on the timers it handed out. -/
inductive Op where
  | addTimer (now : Int) (ms : Nat) (cb : Option Cb) (recurring : Bool)
  | cancel (this : Nat)
  | refresh (now : Int) (this : Nat)
  | reset (now : Int) (this : Nat) (ms : Nat) (from_now : Bool)
  | getNextTimeout (now : Int)
  | listExpiredCb (fuel : Nat) (now now2 : Int)
deriving DecidableEq, Repr

/-- Effect of one call on the manager and on the vector that collects the
output of the `listExpiredCb` calls; `none` when a `listExpiredCb` call does not
return within its fuel. -/
def execOp (tpm : Nat) (st : TimerManager × List (Option Cb)) :
    Op → Option (TimerManager × List (Option Cb))
  | Op.addTimer now ms cb recurring => some ((st.1.addTimer tpm now ms cb recurring).mgr, st.2)
  | Op.cancel this => some ((Timer.cancel st.1 this).2, st.2)
  | Op.refresh now this => some ((Timer.refresh tpm st.1 now this).2, st.2)
  | Op.reset now this ms from_now => some ((Timer.reset tpm st.1 now this ms from_now).mgr, st.2)
  | Op.getNextTimeout now => some ((st.1.getNextTimeout tpm now).2, st.2)
  | Op.listExpiredCb fuel now now2 => st.1.listExpiredCb tpm fuel now now2 st.2

/-- Effect of a sequence of calls. -/
def execOps (tpm : Nat) (st : TimerManager × List (Option Cb)) :
    List Op → Option (TimerManager × List (Option Cb))
  | [] => some st
  | op :: ops =>
    match execOp tpm st op with
    | none => none
    | some st1 => execOps tpm st1 ops

/-- The set after `it = find(p); if (it != end()) erase(it);`. -/
def eraseFound (lt : Nat → Nat → Bool) (l : List Nat) (p : Nat) : List Nat :=
  match setFind lt l p with
  | some i => l.eraseIdx i
  | none => l

/-! ## IOManager: per-fd event contexts -/

/-- Value `NONE` of `enum Event` (ioscheduler.h 12-16). -/
def Event.NONE : Nat := 0

/-- Value `READ` of `enum Event` (ioscheduler.h 12-16). -/
def Event.READ : Nat := 1

/-- Value `WRITE` of `enum Event` (ioscheduler.h 12-16). -/
def Event.WRITE : Nat := 4

/-- Bitwise complement `~x` of a 32-bit `int` whose bits are the number `x`. -/
def bitNot32 (x : Nat) : Nat := (2 ^ 32 - 1) ^^^ x

/-- Record `FdContext::EventContext` (ioscheduler.h 20-24): a scheduler pointer,
a fiber pointer (`none` is `nullptr`) and a callback. -/
structure EventContext where
  scheduler : Option Nat
  fiber : Option Nat
  cb : Option Cb
deriving DecidableEq, Repr

/-- Record `IOManager::FdContext` (ioscheduler.h 19-34) without its mutex;
`events` holds the bits of the `Event` mask. -/
structure FdContext where
  read : EventContext
  write : EventContext
  fd : Int
  events : Nat
deriving DecidableEq, Repr

/-- The member that `getEventContext` returns a reference to. -/
inductive EventSlot where
  | read
  | write
deriving DecidableEq, Repr

/-- Method `FdContext::getEventContext(event)` (ioscheduler.cc 12-22); `none`
when the assertion `event == READ || event == WRITE` fails. -/
def FdContext.getEventContext (event : Nat) : Option EventSlot :=
  if event = Event.READ then some EventSlot.read
  else if event = Event.WRITE then some EventSlot.write
  else none

/-- Read through the reference returned by `getEventContext`. -/
def FdContext.slot (ctx : FdContext) : EventSlot → EventContext
  | EventSlot.read => ctx.read
  | EventSlot.write => ctx.write

/-- Write through the reference returned by `getEventContext`. -/
def FdContext.setSlot (ctx : FdContext) : EventSlot → EventContext → FdContext
  | EventSlot.read, e => { ctx with read := e }
  | EventSlot.write, e => { ctx with write := e }

/-- Method `FdContext::resetEventContext(ctx)` (ioscheduler.cc 24-28). -/
def FdContext.resetEventContext (_ : EventContext) : EventContext :=
  ⟨none, none, none⟩

/-- Constructor of `ScheduleTask` from a pointer to a callback or to a fiber
pointer, used by `scheduleLock(&ctx.cb)` and `scheduleLock(&ctx.fiber)`.
Modelled from the spec: scheduler.h declares no constructor that takes a
pointer; the spec says that `triggerEvent` "schedules the stored callback or
fiber via its stored scheduler", so the task holds what the pointer points to. -/
def ScheduleTask.ofPointer (pointee : FiberOrcb) (thread : Int) : ScheduleTask :=
  ScheduleTask.ofFiberOrcb pointee thread

/-- Method `Scheduler::scheduleLock(fc, thread)` (scheduler.h 30-46) called with
a pointer `fc` to `pointee`; the second component tells whether `tickle()` was
called. -/
def Scheduler.scheduleLockPtr (s : Scheduler) (pointee : FiberOrcb) (thread : Int) :
    Scheduler × Bool :=
  let need_tickle := s.m_tasks.isEmpty
  let task := ScheduleTask.ofPointer pointee thread
  if task.fiber.isSome || task.cb.isSome then
    ({ s with m_tasks := s.m_tasks ++ [task] }, need_tickle)
  else (s, need_tickle)

/-- Outcome of `triggerEvent`: the fd context, the schedulers (a scheduler
pointer is an index into the list), and whether `tickle()` was called. -/
structure TriggerResult where
  ctx : FdContext
  scheds : List Scheduler
  tickled : Bool
deriving DecidableEq, Repr

/-- Method `FdContext::triggerEvent(event)` (ioscheduler.cc 30-43); `none` when
an assertion fails or `ctx.scheduler` is not a pointer to a scheduler. -/
def FdContext.triggerEvent (fd_ctx : FdContext) (scheds : List Scheduler) (event : Nat) :
    Option TriggerResult :=
  if fd_ctx.events &&& event = 0 then none
  else
    let c1 : FdContext := { fd_ctx with events := fd_ctx.events &&& bitNot32 event }
    match FdContext.getEventContext event with
    | none => none
    | some sl =>
      let ctx := c1.slot sl
      match ctx.scheduler with
      | none => none
      | some sp =>
        match scheds[sp]? with
        | none => none
        | some sch =>
          let r :=
            if ctx.cb.isSome then sch.scheduleLockPtr (FiberOrcb.cb ctx.cb) (-1)
            else sch.scheduleLockPtr (FiberOrcb.fiber ctx.fiber) (-1)
          some ⟨c1.setSlot sl (FdContext.resetEventContext ctx), scheds.set sp r.1, r.2⟩

/-! ## Theorems -/

/-! ## Periods in clock ticks -/

theorem toInt64_of_lt (x : Nat) (h : x < 2 ^ 63) : toInt64 x = (x : Int) := by
  unfold toInt64
  have hmod : x % 2 ^ 64 = x := Nat.mod_eq_of_lt (by omega)
  rw [hmod, if_pos h]

theorem msTicks_of_lt (tpm ms : Nat) (h : ms < 2 ^ 63) :
    msTicks tpm ms = (ms : Int) * (tpm : Int) := by
  unfold msTicks
  rw [toInt64_of_lt ms h]

theorem msTicks_zero (tpm : Nat) : msTicks tpm 0 = 0 := by
  rw [msTicks_of_lt tpm 0 (by decide)]
  simp

/-! ## Heap lemmas -/

theorem deref_store_same (s : TimerManager) (p : Nat) (t : Timer) (h : p < s.objs.length) :
    (s.store p t).deref p = t := by
  simp [TimerManager.deref, TimerManager.store, List.getElem?_set, h]

theorem deref_store_other (s : TimerManager) (p q : Nat) (t : Timer) (h : q ≠ p) :
    (s.store p t).deref q = s.deref q := by
  simp [TimerManager.deref, TimerManager.store, List.getElem?_set_ne (Ne.symm h)]

theorem deref_append_old (s : TimerManager) (t : Timer) (p : Nat) (h : p < s.objs.length) :
    ({ s with objs := s.objs ++ [t] } : TimerManager).deref p = s.deref p := by
  simp [TimerManager.deref, List.getElem?_append_left h]

theorem deref_append_new (s : TimerManager) (t : Timer) :
    ({ s with objs := s.objs ++ [t] } : TimerManager).deref s.objs.length = t := by
  simp [TimerManager.deref]

/-- C6: `addTimer(ms, cb, recurring)` returns null exactly when `ms == 0` or
`cb` is empty, and then the whole manager (timer set, tickled flag, timer
objects, last observed time) is unchanged and `onTimerInsertedAtFront` is not
invoked. -/
theorem C6_addTimer_null_iff_invalid (tpm : Nat) (s : TimerManager) (now : Int) (ms : Nat)
    (cb : Option Cb) (recurring : Bool) :
    ((s.addTimer tpm now ms cb recurring).ret = none ↔ (ms = 0 ∨ cb = none)) ∧
    ((s.addTimer tpm now ms cb recurring).ret = none →
      (s.addTimer tpm now ms cb recurring).mgr = s ∧
      (s.addTimer tpm now ms cb recurring).hook = false) := by
  unfold TimerManager.addTimer
  by_cases h : ms = 0 ∨ cb = none
  · simp [h]
  · simp [h]

theorem getNextTimeout_cast (k tpm : Nat) (hk : (k : Int) < 2 ^ 63) :
    Int.toNat (Int.emod (Int.tdiv (k : Int) (tpm : Int)) (2 ^ 64)) = k / tpm := by
  rw [← Int.ofNat_tdiv]
  have h1 : ((k / tpm : Nat) : Int) < 2 ^ 64 := by
    have : k / tpm ≤ k := Nat.div_le_self k tpm
    omega
  have h2 : Int.emod ((k / tpm : Nat) : Int) (2 ^ 64) = ((k / tpm : Nat) : Int) :=
    Int.emod_eq_of_lt (Int.ofNat_nonneg _) h1
  rw [h2]
  exact Int.toNat_ofNat _

theorem getNextTimeout_state (tpm : Nat) (s : TimerManager) (now : Int) :
    (s.getNextTimeout tpm now).2 = { s with m_tickled := false } := by
  unfold TimerManager.getNextTimeout
  rcases s.m_timers with _ | ⟨hd, tl⟩
  · rfl
  · simp only []
    split <;> rfl

theorem getNextTimeout_cons (tpm : Nat) (s : TimerManager) (now : Int) (hd : Nat) (tl : List Nat)
    (hs : s.m_timers = hd :: tl) :
    (s.getNextTimeout tpm now).1 =
      if (s.deref hd).m_next ≤ now then 0
      else Int.toNat (Int.emod (Int.tdiv ((s.deref hd).m_next - now) (tpm : Int)) (2 ^ 64)) := by
  unfold TimerManager.getNextTimeout
  simp only [hs, ge_iff_le]
  have hderef : ∀ t k l, (TimerManager.mk s.objs t k l).deref hd = s.deref hd :=
    fun _ _ _ => rfl
  simp only [hderef]
  split <;> rfl

/-- C5: `getNextTimeout` at clock reading `now` returns `2^64 - 1` when the
timer set is empty, `0` when the earliest deadline of the set is at or before
`now`, and otherwise the whole number of milliseconds from `now` to the
earliest deadline; in every case the tickled flag is false afterwards and the
timer set (and every timer object) is unchanged.  The set is a sorted
`std::set`, and `time - now` fits the signed 64-bit tick count. -/
theorem C5_getNextTimeout (tpm : Nat) (s : TimerManager) (now : Int)
    (hsorted : s.Sorted)
    (hrange : ∀ p ∈ s.m_timers, (s.deref p).m_next - now < 2 ^ 63) :
    (s.getNextTimeout tpm now).2.m_tickled = false ∧
    (s.getNextTimeout tpm now).2.m_timers = s.m_timers ∧
    (s.getNextTimeout tpm now).2.objs = s.objs ∧
    (s.getNextTimeout tpm now).2.m_lastTime = s.m_lastTime ∧
    (s.m_timers = [] → (s.getNextTimeout tpm now).1 = 2 ^ 64 - 1) ∧
    (∀ p ∈ s.m_timers, (∀ q ∈ s.m_timers, (s.deref p).m_next ≤ (s.deref q).m_next) →
      ((s.deref p).m_next ≤ now → (s.getNextTimeout tpm now).1 = 0) ∧
      (now < (s.deref p).m_next →
        (s.getNextTimeout tpm now).1 = ((s.deref p).m_next - now).toNat / tpm)) := by
  rw [getNextTimeout_state]
  refine ⟨rfl, rfl, rfl, rfl, ?_, ?_⟩
  · intro h
    unfold TimerManager.getNextTimeout
    simp [h]
  · intro p hp hmin
    rcases hs : s.m_timers with _ | ⟨hd, tl⟩
    · rw [hs] at hp; cases hp
    · rw [getNextTimeout_cons tpm s now hd tl hs]
      have hhd : (s.deref p).m_next = (s.deref hd).m_next := by
        have h1 := hmin hd (by rw [hs]; simp)
        rw [hs] at hp
        rcases List.mem_cons.mp hp with rfl | hp'
        · rfl
        · have hso : List.Pairwise (fun a b => (s.deref a).m_next < (s.deref b).m_next) (hd :: tl) := by
            have := hsorted; unfold TimerManager.Sorted at this; rwa [hs] at this
          have h2 := (List.pairwise_cons.mp hso).1 p hp'
          omega
      rw [hhd]
      constructor
      · intro hle; simp [hle]
      · intro hlt
        have hnot : ¬ (s.deref hd).m_next ≤ now := by omega
        simp only [hnot, if_false]
        have hr := hrange hd (by rw [hs]; simp)
        obtain ⟨k, hk⟩ : ∃ k : Nat, (s.deref hd).m_next - now = (k : Int) :=
          ⟨((s.deref hd).m_next - now).toNat, (Int.toNat_of_nonneg (by omega)).symm⟩
        rw [hk, getNextTimeout_cast _ _ (by omega), Int.toNat_ofNat]

theorem C5_getNextTimeout_witness :
    (⟨[⟨false, 10, 2500, some 7⟩, ⟨false, 10, 9000, some 8⟩], [0, 1], true, 0⟩ : TimerManager).Sorted ∧
    (TimerManager.getNextTimeout 1000
      ⟨[⟨false, 10, 2500, some 7⟩, ⟨false, 10, 9000, some 8⟩], [0, 1], true, 0⟩ 300).1 = 2 := by
  refine ⟨by decide, ?_⟩
  have h := (C5_getNextTimeout 1000
    ⟨[⟨false, 10, 2500, some 7⟩, ⟨false, 10, 9000, some 8⟩], [0, 1], true, 0⟩ 300
    (by decide) (by decide)).2.2.2.2.2 0 (by decide) (by decide)
  exact (h.2 (by decide)).trans (by decide)

/-! ## Task queue -/

theorem scheduleLock_nonEmpty (s : Scheduler) (fc : FiberOrcb) (thread : Int)
    (h : ∀ t ∈ s.m_tasks, t.nonEmpty = true) :
    ∀ t ∈ (s.scheduleLock fc thread).1.m_tasks, t.nonEmpty = true := by
  unfold Scheduler.scheduleLock
  by_cases hne : ((ScheduleTask.ofFiberOrcb fc thread).fiber.isSome
      || (ScheduleTask.ofFiberOrcb fc thread).cb.isSome) = true
  · simp only [hne, if_true]
    intro t ht
    rcases List.mem_append.mp ht with h1 | h1
    · exact h t h1
    · rw [List.mem_singleton] at h1
      rw [h1]; exact hne
  · simp only [hne]
    exact h

theorem foldl_scheduleLock_nonEmpty (calls : List (FiberOrcb × Int)) :
    ∀ s : Scheduler, (∀ t ∈ s.m_tasks, t.nonEmpty = true) →
      ∀ t ∈ (calls.foldl (fun s c => (s.scheduleLock c.1 c.2).1) s).m_tasks, t.nonEmpty = true := by
  induction calls with
  | nil => intro s h; exact h
  | cons c cs ih =>
    intro s h
    exact ih _ (scheduleLock_nonEmpty s c.1 c.2 h)

theorem buildQueue_nonEmpty (calls : List (FiberOrcb × Int)) :
    ∀ t ∈ buildQueue calls, t.nonEmpty = true :=
  foldl_scheduleLock_nonEmpty calls ⟨[], 0, 0⟩ (by simp)

theorem scanTasks_skip (w : Int) (t : ScheduleTask) (ts : List ScheduleTask)
    (h : t.eligible w = false) :
    scanTasks w (t :: ts) =
      (scanTasks w ts).map fun r => { r with m_tasks := t :: r.m_tasks, tickle_me := true } := by
  have h' : t.thread ≠ -1 ∧ t.thread ≠ w := by
    simpa [ScheduleTask.eligible] using h
  rw [scanTasks, if_pos h']

theorem scanTasks_take (w : Int) (t : ScheduleTask) (ts : List ScheduleTask)
    (h : t.eligible w = true) (hne : t.nonEmpty = true) :
    scanTasks w (t :: ts) = some ⟨t, ts, !ts.isEmpty, true⟩ := by
  have h' : ¬ (t.thread ≠ -1 ∧ t.thread ≠ w) := by
    intro hc
    simp [ScheduleTask.eligible, hc.1, hc.2] at h
  have hne' : (t.fiber.isSome || t.cb.isSome) = true := hne
  rw [scanTasks, if_neg h', if_pos hne']

theorem scanTasks_none_eligible (w : Int) (q : List ScheduleTask)
    (h : ∀ t ∈ q, t.eligible w = false) :
    scanTasks w q = some ⟨ScheduleTask.reset, q, !q.isEmpty, false⟩ := by
  induction q with
  | nil => rfl
  | cons t ts ih =>
    rw [scanTasks_skip w t ts (h t (by simp)), ih (fun x hx => h x (by simp [hx]))]
    rfl

theorem scanTasks_first_eligible (w : Int) (pre : List ScheduleTask) (t : ScheduleTask)
    (post : List ScheduleTask) (hpre : ∀ x ∈ pre, x.eligible w = false)
    (ht : t.eligible w = true) (hne : t.nonEmpty = true) :
    scanTasks w (pre ++ t :: post) =
      some ⟨t, pre ++ post, !pre.isEmpty || !post.isEmpty, true⟩ := by
  induction pre with
  | nil => simpa using scanTasks_take w t post ht hne
  | cons x xs ih =>
    rw [List.cons_append, scanTasks_skip w x _ (hpre x (by simp)),
      ih (fun y hy => hpre y (by simp [hy]))]
    rfl

theorem exists_first_eligible (w : Int) (q : List ScheduleTask)
    (h : ∃ t ∈ q, t.eligible w = true) :
    ∃ pre t post, q = pre ++ t :: post ∧ (∀ x ∈ pre, x.eligible w = false) ∧
      t.eligible w = true := by
  induction q with
  | nil => obtain ⟨t, ht, _⟩ := h; cases ht
  | cons x xs ih =>
    by_cases hx : x.eligible w = true
    · exact ⟨[], x, xs, rfl, by simp, hx⟩
    · have hx' : x.eligible w = false := by simpa using hx
      obtain ⟨t, ht, hte⟩ := h
      have : ∃ t ∈ xs, t.eligible w = true := by
        rcases List.mem_cons.mp ht with rfl | ht'
        · rw [hx'] at hte; cases hte
        · exact ⟨t, ht', hte⟩
      obtain ⟨pre, t', post, hq, hpre, ht'⟩ := ih this
      refine ⟨x :: pre, t', post, by rw [hq]; rfl, ?_, ht'⟩
      intro y hy
      rcases List.mem_cons.mp hy with rfl | hy'
      · exact hx'
      · exact hpre y hy'

theorem filter_eligible_eq_nil (w : Int) (q : List ScheduleTask)
    (h : ∀ t ∈ q, t.eligible w = false) : q.filter (ScheduleTask.eligible w) = [] := by
  rw [List.filter_eq_nil_iff]
  intro t ht
  simp [h t ht]

theorem adoptSeq_eq_filter (w : Int) (n : Nat) :
    ∀ q : List ScheduleTask, (∀ t ∈ q, t.nonEmpty = true) →
      adoptSeq w n q = some ((q.filter (ScheduleTask.eligible w)).take n) := by
  induction n with
  | zero => intro q _; simp [adoptSeq]
  | succ n ih =>
    intro q hne
    by_cases h : ∃ t ∈ q, t.eligible w = true
    · obtain ⟨pre, t, post, hq, hpre, ht⟩ := exists_first_eligible w q h
      have htne : t.nonEmpty = true := hne t (by rw [hq]; simp)
      have hrest : ∀ x ∈ pre ++ post, x.nonEmpty = true := by
        intro x hx
        apply hne x
        rw [hq]
        rcases List.mem_append.mp hx with h1 | h1
        · simp [h1]
        · simp [h1]
      simp only [adoptSeq]
      rw [hq, scanTasks_first_eligible w pre t post hpre ht htne]
      simp only [if_true]
      rw [ih (pre ++ post) hrest]
      simp [List.filter_append, filter_eligible_eq_nil w pre hpre, List.filter_cons, ht]
    · have hall : ∀ t ∈ q, t.eligible w = false := by
        intro t ht
        by_contra hc
        exact h ⟨t, ht, by simpa using hc⟩
      simp only [adoptSeq]
      rw [scanTasks_none_eligible w q hall, filter_eligible_eq_nil w q hall]
      simp

theorem foldl_scheduleLock_tasks (calls : List (FiberOrcb × Int)) :
    ∀ s : Scheduler,
      (calls.foldl (fun s c => (s.scheduleLock c.1 c.2).1) s).m_tasks =
        s.m_tasks ++ (calls.map fun c => ScheduleTask.ofFiberOrcb c.1 c.2).filter
          ScheduleTask.nonEmpty := by
  induction calls with
  | nil => intro s; simp
  | cons c cs ih =>
    intro s
    rw [List.foldl_cons, ih]
    unfold Scheduler.scheduleLock
    by_cases hne : ((ScheduleTask.ofFiberOrcb c.1 c.2).fiber.isSome
        || (ScheduleTask.ofFiberOrcb c.1 c.2).cb.isSome) = true
    · have hne' : (ScheduleTask.ofFiberOrcb c.1 c.2).nonEmpty = true := hne
      simp only [hne, if_true, List.map_cons, List.filter_cons, hne']
      simp
    · have hne' : ¬ (ScheduleTask.ofFiberOrcb c.1 c.2).nonEmpty = true := hne
      simp only [hne, List.map_cons, List.filter_cons, hne']
      simp

theorem buildQueue_eq (calls : List (FiberOrcb × Int)) :
    buildQueue calls =
      (calls.map fun c => ScheduleTask.ofFiberOrcb c.1 c.2).filter ScheduleTask.nonEmpty := by
  unfold buildQueue
  rw [foldl_scheduleLock_tasks]
  simp

/-- C9: for every task queue built by `scheduleLock` calls and every worker id
`w`: (0) the queue holds the scheduled non-empty tasks in the order of the
calls; the scan of the worker loop succeeds and (1) adopts nothing and leaves
the queue as it is when no task has thread -1 or `w`; (2) otherwise takes out
the earliest task whose thread is -1 or `w` and leaves the other tasks in their
order; (3) hence consecutive passes adopt the tasks eligible for `w` in the
order in which they were scheduled; (4) S1: two unpinned callbacks scheduled
as 1, 2 are adopted by the one worker in the order 1, 2. -/
theorem C9_adoption_is_fifo_among_eligible (calls : List (FiberOrcb × Int)) (w : Int) :
    buildQueue calls =
      ((calls.map fun c => ScheduleTask.ofFiberOrcb c.1 c.2).filter ScheduleTask.nonEmpty) ∧
    (∃ r, scanTasks w (buildQueue calls) = some r ∧
      ((∀ t ∈ buildQueue calls, t.eligible w = false) →
        r.adopted = false ∧ r.task = ScheduleTask.reset ∧ r.m_tasks = buildQueue calls) ∧
      (∀ pre t post, buildQueue calls = pre ++ t :: post →
        (∀ x ∈ pre, x.eligible w = false) → t.eligible w = true →
        r.adopted = true ∧ r.task = t ∧ r.m_tasks = pre ++ post)) ∧
    (∀ n, adoptSeq w n (buildQueue calls) =
      some (((buildQueue calls).filter (ScheduleTask.eligible w)).take n)) ∧
    adoptSeq w 3 (buildQueue [(FiberOrcb.cb (some 1), -1), (FiberOrcb.cb (some 2), -1)]) =
      some [⟨none, some 1, -1⟩, ⟨none, some 2, -1⟩] := by
  refine ⟨buildQueue_eq calls, ?_,
    fun n => adoptSeq_eq_filter w n _ (buildQueue_nonEmpty calls), ?_⟩
  · by_cases h : ∃ t ∈ buildQueue calls, t.eligible w = true
    · obtain ⟨pre, t, post, hq, hpre, ht⟩ := exists_first_eligible w _ h
      have htne : t.nonEmpty = true := buildQueue_nonEmpty calls t (by rw [hq]; simp)
      refine ⟨_, by rw [hq]; exact scanTasks_first_eligible w pre t post hpre ht htne, ?_, ?_⟩
      · intro hall
        have := hall t (by rw [hq]; simp)
        rw [ht] at this; cases this
      · intro pre' t' post' hq' hpre' ht'
        have hne' : t'.nonEmpty = true := buildQueue_nonEmpty calls t' (by rw [hq']; simp)
        have h1 := scanTasks_first_eligible w pre t post hpre ht htne
        have h2 := scanTasks_first_eligible w pre' t' post' hpre' ht' hne'
        rw [← hq] at h1
        rw [← hq', h1] at h2
        have h3 := Option.some.inj h2
        have ht : t = t' := congrArg ScanResult.task h3
        have hm : pre ++ post = pre' ++ post' := congrArg ScanResult.m_tasks h3
        exact ⟨rfl, ht, hm⟩
    · have hall : ∀ t ∈ buildQueue calls, t.eligible w = false := by
        intro t ht
        by_contra hc
        exact h ⟨t, ht, by simpa using hc⟩
      refine ⟨_, scanTasks_none_eligible w _ hall, fun _ => ⟨rfl, rfl, rfl⟩, ?_⟩
      intro pre t post hq _ ht
      have := hall t (by rw [hq]; simp)
      rw [ht] at this; cases this
  · rw [adoptSeq_eq_filter w 3 _ (buildQueue_nonEmpty _)]
    have hq : buildQueue [(FiberOrcb.cb (some 1), -1), (FiberOrcb.cb (some 2), -1)] =
        [⟨none, some 1, -1⟩, ⟨none, some 2, -1⟩] := by decide
    rw [hq]
    simp [List.filter, ScheduleTask.eligible]

/-! ## The ordered set -/

theorem setInsert_mem (lt : Nat → Nat → Bool) (p : Nat) :
    ∀ l x, x ∈ (setInsert lt l p).elems → x = p ∨ x ∈ l := by
  intro l
  induction l with
  | nil => intro x hx; simp [setInsert] at hx; exact Or.inl hx
  | cons y ys ih =>
    intro x hx
    unfold setInsert at hx
    by_cases h1 : lt p y = true
    · simp only [h1, if_true] at hx
      rcases List.mem_cons.mp hx with h | h
      · exact Or.inl h
      · exact Or.inr h
    · by_cases h2 : lt y p = true
      · simp only [h1, h2, if_true] at hx
        rcases List.mem_cons.mp hx with h | h
        · exact Or.inr (by simp [h])
        · rcases ih x h with h' | h'
          · exact Or.inl h'
          · exact Or.inr (by simp [h'])
      · simp only [h1, h2] at hx
        exact Or.inr hx

theorem setInsert_subset (lt : Nat → Nat → Bool) (p : Nat) :
    ∀ l x, x ∈ l → x ∈ (setInsert lt l p).elems := by
  intro l
  induction l with
  | nil => intro x hx; cases hx
  | cons y ys ih =>
    intro x hx
    unfold setInsert
    by_cases h1 : lt p y = true
    · simp only [h1, if_true]
      exact List.mem_cons_of_mem _ hx
    · by_cases h2 : lt y p = true
      · simp only [h1, h2, if_true]
        rcases List.mem_cons.mp hx with h | h
        · simp [h]
        · exact List.mem_cons_of_mem _ (ih x h)
      · simp only [h1, h2]
        exact hx

theorem setInsert_key_mem (key : Nat → Int) (lt : Nat → Nat → Bool)
    (hlt : ∀ a b, lt a b = decide (key a < key b)) (p : Nat) :
    ∀ l, ∃ x ∈ (setInsert lt l p).elems, key x = key p := by
  intro l
  induction l with
  | nil => exact ⟨p, by simp [setInsert], rfl⟩
  | cons y ys ih =>
    unfold setInsert
    by_cases h1 : lt p y = true
    · simp only [h1, if_true]
      exact ⟨p, by simp, rfl⟩
    · by_cases h2 : lt y p = true
      · simp only [h1, h2, if_true]
        obtain ⟨x, hx, hk⟩ := ih
        exact ⟨x, List.mem_cons_of_mem _ hx, hk⟩
      · simp only [h1, h2]
        refine ⟨y, by simp, ?_⟩
        rw [hlt] at h1 h2
        simp at h1 h2
        omega

theorem setInsert_of_no_equal (key : Nat → Int) (lt : Nat → Nat → Bool)
    (hlt : ∀ a b, lt a b = decide (key a < key b)) (p : Nat) :
    ∀ l, (∀ x ∈ l, key x ≠ key p) → p ∈ (setInsert lt l p).elems := by
  intro l
  induction l with
  | nil => intro _; simp [setInsert]
  | cons y ys ih =>
    intro h
    unfold setInsert
    by_cases h1 : lt p y = true
    · simp only [h1, if_true]; simp
    · by_cases h2 : lt y p = true
      · simp only [h1, h2, if_true]
        exact List.mem_cons_of_mem _ (ih (fun x hx => h x (by simp [hx])))
      · exfalso
        rw [hlt] at h1 h2
        simp at h1 h2
        exact h y (by simp) (by omega)

theorem setInsert_sorted (key : Nat → Int) (lt : Nat → Nat → Bool)
    (hlt : ∀ a b, lt a b = decide (key a < key b)) (p : Nat) :
    ∀ l, l.Pairwise (fun a b => key a < key b) →
      (setInsert lt l p).elems.Pairwise (fun a b => key a < key b) := by
  intro l
  induction l with
  | nil => intro _; simp [setInsert]
  | cons y ys ih =>
    intro h
    have hy := (List.pairwise_cons.mp h).1
    have hys := (List.pairwise_cons.mp h).2
    unfold setInsert
    by_cases h1 : lt p y = true
    · simp only [h1, if_true]
      rw [hlt] at h1
      simp at h1
      refine List.pairwise_cons.mpr ⟨?_, h⟩
      intro x hx
      rcases List.mem_cons.mp hx with rfl | hx'
      · exact h1
      · have := hy x hx'; omega
    · by_cases h2 : lt y p = true
      · simp only [h1, h2, if_true]
        refine List.pairwise_cons.mpr ⟨?_, ih hys⟩
        intro x hx
        rcases setInsert_mem lt p ys x hx with rfl | hx'
        · rw [hlt] at h2; simpa using h2
        · exact hy x hx'
      · simp only [h1, h2]
        exact h

theorem setInsert_blocked (key : Nat → Int) (lt : Nat → Nat → Bool)
    (hlt : ∀ a b, lt a b = decide (key a < key b)) (p : Nat) :
    ∀ l, l.Pairwise (fun a b => key a < key b) → (∃ x ∈ l, key x = key p) →
      setInsert lt l p = ⟨l, (setInsert lt l p).pos, false⟩ := by
  intro l
  induction l with
  | nil => intro _ h; obtain ⟨x, hx, _⟩ := h; cases hx
  | cons y ys ih =>
    intro h hex
    have hy := (List.pairwise_cons.mp h).1
    have hys := (List.pairwise_cons.mp h).2
    obtain ⟨x, hx, hk⟩ := hex
    by_cases h1 : lt p y = true
    · exfalso
      rw [hlt] at h1
      simp at h1
      rcases List.mem_cons.mp hx with rfl | hx'
      · omega
      · have := hy x hx'; omega
    · by_cases h2 : lt y p = true
      · have hex' : ∃ x ∈ ys, key x = key p := by
          rcases List.mem_cons.mp hx with rfl | hx'
          · rw [hlt] at h2; simp at h2; omega
          · exact ⟨x, hx', hk⟩
        have e := ih hys hex'
        have e1 : (setInsert lt ys p).elems = ys := congrArg InsertResult.elems e
        have e2 : (setInsert lt ys p).inserted = false := congrArg InsertResult.inserted e
        simp only [setInsert, h1, h2, if_true, e1, e2]
        simp
      · simp only [setInsert, h1, h2]
        simp

theorem setInsert_congr (lt lt' : Nat → Nat → Bool) (p : Nat) :
    ∀ l, (∀ x ∈ l, lt p x = lt' p x ∧ lt x p = lt' x p) → setInsert lt l p = setInsert lt' l p := by
  intro l
  induction l with
  | nil => intro _; rfl
  | cons y ys ih =>
    intro h
    have hy := h y (by simp)
    unfold setInsert
    rw [hy.1, hy.2, ih (fun x hx => h x (by simp [hx]))]

theorem setFind_of_no_equal (key : Nat → Int) (lt : Nat → Nat → Bool)
    (hlt : ∀ a b, lt a b = decide (key a < key b)) (p : Nat) :
    ∀ l, (∀ x ∈ l, key x ≠ key p) → setFind lt l p = none := by
  intro l
  induction l with
  | nil => intro _; rfl
  | cons y ys ih =>
    intro h
    unfold setFind
    by_cases h1 : lt y p = true
    · simp only [h1, if_true]
      rw [ih (fun x hx => h x (by simp [hx]))]
      rfl
    · by_cases h2 : lt p y = true
      · simp only [h1, h2, if_true]
        simp
      · exfalso
        rw [hlt] at h1 h2
        simp at h1 h2
        exact h y (by simp) (by omega)

theorem setFind_some_key (key : Nat → Int) (lt : Nat → Nat → Bool)
    (hlt : ∀ a b, lt a b = decide (key a < key b)) (p : Nat) :
    ∀ l i, setFind lt l p = some i → ∃ x, l[i]? = some x ∧ key x = key p := by
  intro l
  induction l with
  | nil => intro i h; simp [setFind] at h
  | cons y ys ih =>
    intro i h
    unfold setFind at h
    by_cases h1 : lt y p = true
    · simp only [h1, if_true] at h
      rcases hj : setFind lt ys p with _ | j
      · rw [hj] at h; simp at h
      · rw [hj] at h
        simp at h
        obtain ⟨x, hx, hk⟩ := ih j hj
        refine ⟨x, ?_, hk⟩
        rw [← h]; simpa using hx
    · by_cases h2 : lt p y = true
      · simp only [h1, h2, if_true] at h
        simp at h
      · simp only [h1, h2] at h
        simp at h
        refine ⟨y, by rw [← h]; simp, ?_⟩
        rw [hlt] at h1 h2
        simp at h1 h2
        omega

theorem setFind_sorted_mem (key : Nat → Int) (lt : Nat → Nat → Bool)
    (hlt : ∀ a b, lt a b = decide (key a < key b)) (p : Nat) :
    ∀ l, l.Pairwise (fun a b => key a < key b) → p ∈ l →
      ∃ i, setFind lt l p = some i ∧ l.eraseIdx i = l.erase p := by
  intro l
  induction l with
  | nil => intro _ h; cases h
  | cons y ys ih =>
    intro h hp
    have hy := (List.pairwise_cons.mp h).1
    have hys := (List.pairwise_cons.mp h).2
    by_cases hyp : y = p
    · subst hyp
      refine ⟨0, ?_, by simp⟩
      have : lt y y = false := by rw [hlt]; simp
      simp [setFind, this]
    · have hp' : p ∈ ys := by
        rcases List.mem_cons.mp hp with h' | h'
        · exact absurd h'.symm hyp
        · exact h'
      have h1 : lt y p = true := by rw [hlt]; simpa using hy p hp'
      obtain ⟨i, hi, he⟩ := ih hys hp'
      refine ⟨i + 1, ?_, ?_⟩
      · simp [setFind, h1, hi]
      · rw [List.eraseIdx_cons_succ, he, List.erase_cons_tail]
        simpa using hyp

/-! ## `addTimer` -/

theorem Comparator_eq (s : TimerManager) (a b : Nat) :
    Comparator s a b = decide ((fun p => (s.deref p).m_next) a < (fun p => (s.deref p).m_next) b) :=
  rfl

theorem addTimerPtr_objs (s : TimerManager) (p : Nat) : (s.addTimerPtr p).1.objs = s.objs := rfl

theorem addTimerPtr_timers (s : TimerManager) (p : Nat) :
    (s.addTimerPtr p).1.m_timers = (setInsert (Comparator s) s.m_timers p).elems := rfl

theorem addTimerPtr_deref (s : TimerManager) (p q : Nat) :
    (s.addTimerPtr p).1.deref q = s.deref q := rfl

theorem addTimerPtr_sorted (s : TimerManager) (p : Nat) (h : s.Sorted) :
    (s.addTimerPtr p).1.Sorted := by
  unfold TimerManager.Sorted
  rw [addTimerPtr_timers]
  simp only [addTimerPtr_deref]
  exact setInsert_sorted (fun q => (s.deref q).m_next) (Comparator s) (Comparator_eq s) p _ h

theorem addTimer_ok (tpm : Nat) (s : TimerManager) (now : Int) (ms : Nat) (cb : Option Cb)
    (recurring : Bool) (hms : ms ≠ 0) (hcb : cb ≠ none) :
    s.addTimer tpm now ms cb recurring =
      ⟨some s.objs.length,
        (({ s with objs := s.objs ++ [Timer.ctor tpm now ms cb recurring] } :
          TimerManager).addTimerPtr s.objs.length).1,
        (({ s with objs := s.objs ++ [Timer.ctor tpm now ms cb recurring] } :
          TimerManager).addTimerPtr s.objs.length).2⟩ := by
  unfold TimerManager.addTimer
  have : ¬ (ms = 0 ∨ cb = none) := by
    intro h; rcases h with h | h
    · exact hms h
    · exact hcb h
  rw [if_neg this]

theorem sorted_append (s : TimerManager) (t : Timer) (h : s.Sorted) (hv : s.Valid) :
    ({ s with objs := s.objs ++ [t] } : TimerManager).Sorted := by
  unfold TimerManager.Sorted at *
  refine List.Pairwise.imp_of_mem ?_ h
  intro a b ha hb hab
  rw [deref_append_old s t a (hv a ha), deref_append_old s t b (hv b hb)]
  exact hab

theorem addTimer_sorted (tpm : Nat) (s : TimerManager) (now : Int) (ms : Nat) (cb : Option Cb)
    (recurring : Bool) (h : s.Sorted) (hv : s.Valid) :
    (s.addTimer tpm now ms cb recurring).mgr.Sorted := by
  unfold TimerManager.addTimer
  by_cases hc : ms = 0 ∨ cb = none
  · rw [if_pos hc]; exact h
  · rw [if_neg hc]
    exact addTimerPtr_sorted _ _ (sorted_append s _ h hv)

theorem addTimer_valid (tpm : Nat) (s : TimerManager) (now : Int) (ms : Nat) (cb : Option Cb)
    (recurring : Bool) (hv : s.Valid) :
    (s.addTimer tpm now ms cb recurring).mgr.Valid := by
  unfold TimerManager.addTimer
  by_cases hc : ms = 0 ∨ cb = none
  · rw [if_pos hc]; exact hv
  · rw [if_neg hc]
    intro p hp
    have hp' : p ∈ (setInsert _ s.m_timers s.objs.length).elems := hp
    have hlen : (({ s with objs := s.objs ++ [Timer.ctor tpm now ms cb recurring] } :
        TimerManager).addTimerPtr s.objs.length).1.objs.length = s.objs.length + 1 := by
      rw [addTimerPtr_objs]; simp
    show p < _
    rw [hlen]
    rcases setInsert_mem _ _ _ _ hp' with h | h
    · omega
    · have := hv p h; omega

/-- C1 (defect of the code): `Timer::Comparator` compares deadlines only, so
after timer A is added, adding a timer B whose computed deadline equals A's
leaves the timer set as it was: B is handed out by `addTimer` but is not in the
set.  The claim says that both are in the set and fire in insertion order. -/
theorem C1_equal_deadline_timer_not_inserted (tpm : Nat) (s : TimerManager)
    (nowA : Int) (msA : Nat) (cbA : Option Cb) (recA : Bool)
    (nowB : Int) (msB : Nat) (cbB : Option Cb) (recB : Bool)
    (hs : s.Sorted) (hv : s.Valid)
    (hmsA : msA ≠ 0) (hcbA : cbA ≠ none) (hmsB : msB ≠ 0) (hcbB : cbB ≠ none)
    (heq : nowA + (msA : Int) * (tpm : Int) = nowB + (msB : Int) * (tpm : Int)) :
    (s.addTimer tpm nowA msA cbA recA).ret = some s.objs.length ∧
    ((s.addTimer tpm nowA msA cbA recA).mgr.addTimer tpm nowB msB cbB recB).ret
      = some (s.objs.length + 1) ∧
    (((s.addTimer tpm nowA msA cbA recA).mgr.addTimer tpm nowB msB cbB recB).mgr.deref
        s.objs.length).m_next =
      (((s.addTimer tpm nowA msA cbA recA).mgr.addTimer tpm nowB msB cbB recB).mgr.deref
        (s.objs.length + 1)).m_next ∧
    ((s.addTimer tpm nowA msA cbA recA).mgr.addTimer tpm nowB msB cbB recB).mgr.m_timers
      = (s.addTimer tpm nowA msA cbA recA).mgr.m_timers ∧
    (s.objs.length + 1) ∉
      ((s.addTimer tpm nowA msA cbA recA).mgr.addTimer tpm nowB msB cbB recB).mgr.m_timers := by
  have hsA := addTimer_sorted tpm s nowA msA cbA recA hs hv
  have hvA := addTimer_valid tpm s nowA msA cbA recA hv
  have hA := addTimer_ok tpm s nowA msA cbA recA hmsA hcbA
  have hlenA : (s.addTimer tpm nowA msA cbA recA).mgr.objs.length = s.objs.length + 1 := by
    rw [hA]; simp [addTimerPtr_objs]
  have hderefA : (s.addTimer tpm nowA msA cbA recA).mgr.deref s.objs.length
      = Timer.ctor tpm nowA msA cbA recA := by
    rw [hA]; exact deref_append_new s _
  -- the set after the first add holds a timer with A's deadline
  obtain ⟨x, hx, hkx⟩ : ∃ x ∈ (s.addTimer tpm nowA msA cbA recA).mgr.m_timers,
      ((s.addTimer tpm nowA msA cbA recA).mgr.deref x).m_next
        = ((s.addTimer tpm nowA msA cbA recA).mgr.deref s.objs.length).m_next := by
    rw [hA]
    exact setInsert_key_mem _ _ (Comparator_eq _) _ _
  generalize (s.addTimer tpm nowA msA cbA recA).mgr = sa at *
  have hB := addTimer_ok tpm sa nowB msB cbB recB hmsB hcbB
  rw [hB, hlenA]
  have hsorted' := sorted_append sa (Timer.ctor tpm nowB msB cbB recB) hsA hvA
  have hblock := setInsert_blocked _ _
    (Comparator_eq ({ sa with objs := sa.objs ++ [Timer.ctor tpm nowB msB cbB recB] }))
    (s.objs.length + 1) sa.m_timers hsorted' ⟨x, hx, by
      show (TimerManager.deref _ x).m_next = (TimerManager.deref _ _).m_next
      rw [deref_append_old sa _ x (hvA x hx), ← hlenA, deref_append_new, hkx, hderefA]
      exact heq⟩
  have htim : (({ sa with objs := sa.objs ++ [Timer.ctor tpm nowB msB cbB recB] } :
      TimerManager).addTimerPtr (s.objs.length + 1)).1.m_timers = sa.m_timers := by
    rw [addTimerPtr_timers]
    exact congrArg InsertResult.elems hblock
  refine ⟨by rw [hA], rfl, ?_, htim, ?_⟩
  · show (TimerManager.deref _ _).m_next = (TimerManager.deref _ _).m_next
    rw [addTimerPtr_deref, addTimerPtr_deref,
      deref_append_old sa _ _ (by omega), hderefA, ← hlenA, deref_append_new]
    exact heq
  · show ¬ (_ ∈ TimerManager.m_timers _)
    rw [htim]
    intro hmem
    have := hvA _ hmem
    omega

theorem C1_equal_deadline_timer_not_inserted_witness :
    ((TimerManager.init 0).addTimer 1 0 10 (some 7) false).ret = some 0 ∧
    (((TimerManager.init 0).addTimer 1 0 10 (some 7) false).mgr.addTimer 1 0 10 (some 8) false).ret
      = some 1 ∧
    (((TimerManager.init 0).addTimer 1 0 10 (some 7) false).mgr.addTimer 1 0 10 (some 8)
      false).mgr.m_timers = [0] ∧
    TimerManager.listExpiredCb 1 2
      (((TimerManager.init 0).addTimer 1 0 10 (some 7) false).mgr.addTimer 1 0 10 (some 8)
        false).mgr 10 10 [] =
      some (⟨[⟨false, 10, 10, none⟩, ⟨false, 10, 10, some 8⟩], [], true, 10⟩, [some 7]) := by
  have h := C1_equal_deadline_timer_not_inserted 1 (TimerManager.init 0) 0 10 (some 7) false
    0 10 (some 8) false (by decide) (by decide) (by decide) (by decide) (by decide) (by decide)
    (by decide)
  exact ⟨h.1, h.2.1, h.2.2.2.1.trans (by decide), by decide⟩

/-! ## The worker loop without a task -/

/-- C10 (defect of the code): in a pass of the worker loop in which no task is
adopted (no task of the queue has thread -1 or the worker's id), the loop
exits exactly when the idle fiber is TERM, and otherwise it neither resumes the
idle fiber nor touches the idle-thread count: the pass only calls `tickle()`
when it skipped a task.  The claim says that an idle fiber that is not TERM is
resumed between an increment and a decrement of the idle-thread count. -/
theorem C10_idle_fiber_not_resumed (w : Int) (fiberState : Nat → FiberState)
    (idleState : FiberState) (s : Scheduler)
    (hq : ∀ t ∈ s.m_tasks, t.eligible w = false) :
    runIteration w fiberState idleState s =
      some ⟨s, if s.m_tasks.isEmpty then [] else [RunEvent.tickle],
        decide (idleState = FiberState.TERM)⟩ := by
  unfold runIteration
  rw [scanTasks_none_eligible w s.m_tasks hq]
  by_cases hidle : idleState = FiberState.TERM
  · simp only [ScheduleTask.reset, idleBranch, if_pos hidle]
    cases h : s.m_tasks.isEmpty <;> simp [hidle]
  · simp only [ScheduleTask.reset, idleBranch, if_neg hidle]
    cases h : s.m_tasks.isEmpty <;> simp [hidle]

theorem C10_idle_fiber_not_resumed_witness :
    runIteration 0 (fun _ => FiberState.READY) FiberState.READY ⟨[], 0, 0⟩ =
      some ⟨⟨[], 0, 0⟩, [], false⟩ ∧
    runIteration 0 (fun _ => FiberState.READY) FiberState.READY
        ⟨[⟨none, some 1, 5⟩], 0, 0⟩ =
      some ⟨⟨[⟨none, some 1, 5⟩], 0, 0⟩, [RunEvent.tickle], false⟩ :=
  ⟨C10_idle_fiber_not_resumed 0 (fun _ => FiberState.READY) FiberState.READY ⟨[], 0, 0⟩
    (by decide),
   C10_idle_fiber_not_resumed 0 (fun _ => FiberState.READY) FiberState.READY
    ⟨[⟨none, some 1, 5⟩], 0, 0⟩ (by decide)⟩

/-! ## `listExpiredCb` -/

theorem listExpiredStep_head (tpm : Nat) (now : Int) (rollover : Bool) (s : TimerManager)
    (cbs : List (Option Cb)) (p : Nat) (rest : List Nat)
    (hs : s.m_timers = p :: rest) (hv : p < s.objs.length)
    (hexp : rollover = true ∨ (s.deref p).m_next ≤ now) :
    s.listExpiredStep tpm now rollover cbs =
      some (if (s.deref p).m_recurring then
          ({ objs := s.objs.set p
                ⟨true, (s.deref p).m_ms, now + msTicks tpm (s.deref p).m_ms, none⟩,
             m_timers := (setInsert
                (Comparator ⟨s.objs.set p
                  ⟨true, (s.deref p).m_ms, now + msTicks tpm (s.deref p).m_ms, none⟩,
                  rest, s.m_tickled, s.m_lastTime⟩) rest p).elems,
             m_tickled := s.m_tickled, m_lastTime := s.m_lastTime } : TimerManager)
        else
          ({ objs := s.objs.set p ⟨false, (s.deref p).m_ms, (s.deref p).m_next, none⟩,
             m_timers := rest, m_tickled := s.m_tickled, m_lastTime := s.m_lastTime } :
            TimerManager),
        cbs ++ [(s.deref p).m_cb]) := by
  have hcond : (rollover || decide ((s.deref p).m_next ≤ now)) = true := by
    rcases hexp with h | h
    · simp [h]
    · simp [h]
  unfold TimerManager.listExpiredStep
  rw [hs]
  simp only [hcond, if_true]
  have hd1 : ∀ t k l, (TimerManager.mk s.objs t k l).deref p = s.deref p := fun _ _ _ => rfl
  have hd2 : ∀ x t k l, (TimerManager.mk (s.objs.set p x) t k l).deref p = x := by
    intro x t k l
    simp [TimerManager.deref, List.getElem?_set, hv]
  cases hrec : (s.deref p).m_recurring
  · simp [TimerManager.store, hd1, hd2, hrec, movedFrom]
  · simp [TimerManager.store, hd1, hd2, hrec, movedFrom]

theorem listExpiredLoop_succ (tpm : Nat) (now : Int) (rollover : Bool) (fuel : Nat)
    (s : TimerManager) (cbs : List (Option Cb)) :
    TimerManager.listExpiredLoop tpm now rollover (fuel + 1) s cbs =
      match s.listExpiredStep tpm now rollover cbs with
      | none => some (s, cbs)
      | some (s1, cbs1) => TimerManager.listExpiredLoop tpm now rollover fuel s1 cbs1 := rfl

/-- A loop of `listExpiredCb` that can always make one more pass never returns:
`I` is preserved by every pass and guarantees that the loop condition holds. -/
theorem listExpiredLoop_diverges (tpm : Nat) (now : Int) (rollover : Bool)
    (I : TimerManager → Prop)
    (hstep : ∀ s cbs, I s → ∃ s1 cbs1, s.listExpiredStep tpm now rollover cbs = some (s1, cbs1) ∧ I s1) :
    ∀ fuel s cbs, I s → TimerManager.listExpiredLoop tpm now rollover fuel s cbs = none := by
  intro fuel
  induction fuel with
  | zero => intro s cbs _; rfl
  | succ n ih =>
    intro s cbs hI
    obtain ⟨s1, cbs1, h1, hI1⟩ := hstep s cbs hI
    rw [listExpiredLoop_succ, h1]
    exact ih s1 cbs1 hI1

/-- C8 (defect of the code): whenever `listExpiredCb` delivers the callback of
the timer at the head of the set (`cbs.push_back(std::move(timer->m_cb))`),
the timer object is left with an empty callback, recurring or not; a recurring
timer therefore goes back into the set without its callback and its next
delivery appends an empty `std::function`; its new deadline is
`now + milliseconds(m_ms)`, which is `now` plus the period for a period below
`2^63`.  The claim says that a recurring timer still holds its callback and
delivers it again. -/
theorem C8_delivered_timer_loses_callback (tpm : Nat) (now : Int) (rollover : Bool)
    (s : TimerManager) (cbs : List (Option Cb)) (p : Nat) (rest : List Nat)
    (hs : s.m_timers = p :: rest) (hv : p < s.objs.length)
    (hexp : rollover = true ∨ (s.deref p).m_next ≤ now) :
    ∃ s1, s.listExpiredStep tpm now rollover cbs = some (s1, cbs ++ [(s.deref p).m_cb]) ∧
      (s1.deref p).m_cb = none ∧
      (s1.deref p).m_recurring = (s.deref p).m_recurring ∧
      ((s.deref p).m_recurring = true →
        (s1.deref p).m_next = now + msTicks tpm (s.deref p).m_ms) ∧
      ((s.deref p).m_recurring = true → (s.deref p).m_ms < 2 ^ 63 →
        (s1.deref p).m_next = now + ((s.deref p).m_ms : Int) * (tpm : Int)) := by
  rw [listExpiredStep_head tpm now rollover s cbs p rest hs hv hexp]
  refine ⟨_, rfl, ?_⟩
  cases hrec : (s.deref p).m_recurring
  · simp [TimerManager.deref, List.getElem?_set, hv]
  · have hd : ∀ x t k l, (TimerManager.mk (s.objs.set p x) t k l).deref p = x := by
      intro x t k l
      simp [TimerManager.deref, List.getElem?_set, hv]
    simp only [if_true, hd, true_and, forall_const]
    intro hlt
    rw [msTicks_of_lt tpm _ hlt]

theorem C8_delivered_timer_loses_callback_witness :
    ((TimerManager.init 0).addTimer 1 0 10 (some 7) true).mgr =
      ⟨[⟨true, 10, 10, some 7⟩], [0], true, 0⟩ ∧
    (∃ s1, TimerManager.listExpiredStep 1 10 false ⟨[⟨true, 10, 10, some 7⟩], [0], true, 0⟩ []
        = some (s1, [some 7]) ∧ (s1.deref 0).m_cb = none) ∧
    TimerManager.listExpiredCb 1 2 ⟨[⟨true, 10, 10, some 7⟩], [0], true, 0⟩ 10 10 [] =
      some (⟨[⟨true, 10, 20, none⟩], [0], true, 10⟩, [some 7]) ∧
    TimerManager.listExpiredCb 1 2 ⟨[⟨true, 10, 20, none⟩], [0], true, 10⟩ 20 20 [] =
      some (⟨[⟨true, 10, 30, none⟩], [0], true, 20⟩, [none]) := by
  refine ⟨by decide, ?_, by decide, by decide⟩
  obtain ⟨s1, h1, h2, _⟩ := C8_delivered_timer_loses_callback 1 10 false
    ⟨[⟨true, 10, 10, some 7⟩], [0], true, 0⟩ [] 0 [] rfl (by decide) (Or.inr (by decide))
  exact ⟨s1, h1, h2⟩

/-- C2 (defect of the code): with no rewind detected, `listExpiredCb` never
returns when the only timer of the set is a due recurring timer of period 0
(a period that `Timer::reset(0, _)` sets): every pass of the loop puts the
timer back with deadline `now`.  The claim says that the call appends the due
callbacks and leaves the other timers in the set. -/
theorem C2_zero_period_recurring_timer_never_returns (tpm : Nat) (s : TimerManager)
    (now now2 : Int) (cbs : List (Option Cb)) (p : Nat)
    (hs : s.m_timers = [p]) (hv : p < s.objs.length)
    (hrec : (s.deref p).m_recurring = true) (hms : (s.deref p).m_ms = 0)
    (hdue : (s.deref p).m_next ≤ now)
    (hnorewind : (s.detectClockChange tpm now2).1 = false) :
    ∀ fuel, s.listExpiredCb tpm fuel now now2 cbs = none := by
  intro fuel
  unfold TimerManager.listExpiredCb
  simp only [hnorewind]
  apply listExpiredLoop_diverges tpm now false
    (fun s => s.m_timers = [p] ∧ p < s.objs.length ∧ (s.deref p).m_recurring = true ∧
      (s.deref p).m_ms = 0 ∧ (s.deref p).m_next ≤ now)
  · intro s cbs ⟨h1, h2, h3, h4, h5⟩
    rw [listExpiredStep_head tpm now false s cbs p [] h1 h2 (Or.inr h5)]
    simp only [h3, h4, if_true, msTicks_zero]
    refine ⟨_, _, rfl, ?_⟩
    simp [TimerManager.deref, List.getElem?_set, h2, setInsert]
  · exact ⟨hs, hv, hrec, hms, hdue⟩

theorem C2_zero_period_recurring_timer_never_returns_witness :
    (Timer.reset 1 ((TimerManager.init 0).addTimer 1 0 10 (some 7) true).mgr 5 0 0 true).mgr =
      ⟨[⟨true, 0, 5, some 7⟩], [0], true, 0⟩ ∧
    ∀ fuel, TimerManager.listExpiredCb 1 fuel ⟨[⟨true, 0, 5, some 7⟩], [0], true, 0⟩ 5 5 [] = none :=
  ⟨by decide, C2_zero_period_recurring_timer_never_returns 1
    ⟨[⟨true, 0, 5, some 7⟩], [0], true, 0⟩ 5 5 [] 0 rfl (by decide) (by decide) (by decide)
    (by decide) (by decide)⟩

/-- C3 (defect of the code): when a rewind is detected and the (non-empty)
timer set holds recurring timers only, `listExpiredCb` never returns: every
pass of the loop takes the first timer out and puts it back (or finds a timer
of the same deadline in its place), so the set never gets empty.  The claim
says that the call returns with every callback appended. -/
theorem C3_rewind_with_recurring_timers_never_returns (tpm : Nat) (s : TimerManager)
    (now now2 : Int) (cbs : List (Option Cb))
    (hne : s.m_timers ≠ [])
    (hall : ∀ p ∈ s.m_timers, p < s.objs.length ∧ (s.deref p).m_recurring = true)
    (hrewind : now2 < s.m_lastTime - (60 * 60 * 1000 : Int) * (tpm : Int)) :
    ∀ fuel, s.listExpiredCb tpm fuel now now2 cbs = none := by
  intro fuel
  unfold TimerManager.listExpiredCb
  have hd : (s.detectClockChange tpm now2).1 = true := by
    unfold TimerManager.detectClockChange
    exact decide_eq_true hrewind
  simp only [hd]
  apply listExpiredLoop_diverges tpm now true
    (fun s => s.m_timers ≠ [] ∧
      ∀ p ∈ s.m_timers, p < s.objs.length ∧ (s.deref p).m_recurring = true)
  · intro s cbs ⟨h1, h2⟩
    rcases hs : s.m_timers with _ | ⟨p, rest⟩
    · exact absurd hs h1
    · have hp := h2 p (by rw [hs]; simp)
      rw [listExpiredStep_head tpm now true s cbs p rest hs hp.1 (Or.inl rfl)]
      refine ⟨_, _, rfl, ?_⟩
      simp only [hp.2, if_true]
      constructor
      · intro hnil
        obtain ⟨x, hx, _⟩ := setInsert_key_mem _ _ (Comparator_eq
          ⟨s.objs.set p ⟨true, (s.deref p).m_ms,
            now + msTicks tpm (s.deref p).m_ms, none⟩,
            rest, s.m_tickled, s.m_lastTime⟩) p rest
        rw [hnil] at hx
        cases hx
      · intro q hq
        have hq' : q = p ∨ q ∈ rest := setInsert_mem _ _ _ _ hq
        by_cases hqp : q = p
        · subst hqp
          simp [TimerManager.deref, List.getElem?_set, hp.1]
        · have hqr : q ∈ rest := by
            rcases hq' with h | h
            · exact absurd h hqp
            · exact h
          have := h2 q (by rw [hs]; simp [hqr])
          refine ⟨by simpa using this.1, ?_⟩
          have hne' : p ≠ q := fun h => hqp h.symm
          simpa [TimerManager.deref, List.getElem?_set_ne hne'] using this.2
  · simpa using And.intro hne hall

theorem C3_rewind_with_recurring_timers_never_returns_witness :
    ((TimerManager.init 10000000).addTimer 1 10000000 10 (some 7) true).mgr =
      ⟨[⟨true, 10, 10000010, some 7⟩], [0], true, 10000000⟩ ∧
    ∀ fuel, TimerManager.listExpiredCb 1 fuel
      ⟨[⟨true, 10, 10000010, some 7⟩], [0], true, 10000000⟩ 0 0 [] = none :=
  ⟨by decide, C3_rewind_with_recurring_timers_never_returns 1
    ⟨[⟨true, 10, 10000010, some 7⟩], [0], true, 10000000⟩ 0 0 [] (by decide) (by decide)
    (by decide)⟩

/-! ## Cancellation -/

theorem deref_store (s : TimerManager) (p q : Nat) (t : Timer) :
    (s.store p t).deref q = if q = p ∧ p < s.objs.length then t else s.deref q := by
  by_cases h : q = p ∧ p < s.objs.length
  · rw [if_pos h, h.1]
    exact deref_store_same s p t h.2
  · rw [if_neg h]
    by_cases hq : q = p
    · subst hq
      have hlen : s.objs.length ≤ q := by
        by_contra hc
        exact h ⟨rfl, by omega⟩
      have hlen' : (s.objs.set q t).length ≤ q := by simpa using hlen
      simp [TimerManager.deref, TimerManager.store, List.getElem?_eq_none hlen,
        List.getElem?_eq_none hlen']
    · exact deref_store_other s p q t hq

theorem Comparator_store (s : TimerManager) (p : Nat) (t : Timer)
    (h : t.m_next = (s.deref p).m_next) : Comparator (s.store p t) = Comparator s := by
  funext a b
  unfold Comparator
  have key : ∀ q, ((s.store p t).deref q).m_next = (s.deref q).m_next := by
    intro q
    rw [deref_store]
    by_cases hq : q = p ∧ p < s.objs.length
    · rw [if_pos hq, h, hq.1]
    · rw [if_neg hq]
  rw [key a, key b]

theorem cancel_live (s : TimerManager) (this : Nat) (h : (s.deref this).m_cb ≠ none) :
    Timer.cancel s this =
      (true, { s.store this { s.deref this with m_cb := none } with
        m_timers := eraseFound (Comparator s) s.m_timers this }) := by
  unfold Timer.cancel
  rw [if_neg h]
  simp only []
  rw [Comparator_store s this { s.deref this with m_cb := none } rfl]
  unfold eraseFound
  have hm : (s.store this { s.deref this with m_cb := none }).m_timers = s.m_timers := rfl
  rw [hm]
  rcases setFind (Comparator s) s.m_timers this with _ | i
  · rfl
  · rfl

theorem sorted_nodup (s : TimerManager) (h : s.Sorted) : s.m_timers.Nodup := by
  unfold TimerManager.Sorted at h
  refine List.Pairwise.imp ?_ h
  intro a b hab he
  rw [he] at hab
  exact lt_irrefl _ hab

theorem reset_found (tpm : Nat) (s : TimerManager) (now : Int) (this : Nat) (ms : Nat)
    (from_now : Bool) (i : Nat)
    (h0 : ¬ (ms = (s.deref this).m_ms ∧ from_now = false))
    (hcb : (s.deref this).m_cb ≠ none)
    (hfind : setFind (Comparator s) s.m_timers this = some i)
    (hv : this < s.objs.length) :
    Timer.reset tpm s now this ms from_now =
      ⟨true,
        (TimerManager.addTimerPtr
          ⟨s.objs.set this ⟨(s.deref this).m_recurring, ms,
            (if from_now then now
              else (s.deref this).m_next - msTicks tpm (s.deref this).m_ms)
              + msTicks tpm ms, (s.deref this).m_cb⟩,
            s.m_timers.eraseIdx i, s.m_tickled, s.m_lastTime⟩ this).1,
        (TimerManager.addTimerPtr
          ⟨s.objs.set this ⟨(s.deref this).m_recurring, ms,
            (if from_now then now
              else (s.deref this).m_next - msTicks tpm (s.deref this).m_ms)
              + msTicks tpm ms, (s.deref this).m_cb⟩,
            s.m_timers.eraseIdx i, s.m_tickled, s.m_lastTime⟩ this).2⟩ := by
  unfold Timer.reset
  rw [if_neg h0, if_neg hcb, hfind]
  simp only []
  have hd1 : ∀ t k l, (TimerManager.mk s.objs t k l).deref this = s.deref this :=
    fun _ _ _ => rfl
  have hd2 : ∀ x t k l, (TimerManager.mk (s.objs.set this x) t k l).deref this = x := by
    intro x t k l
    simp [TimerManager.deref, List.getElem?_set, hv]
  simp only [TimerManager.store, hd1, hd2, List.set_set]

/-- What `reset` does to a live timer of a sorted set (non-null callback,
present in the set): it returns true, the timer has period `ms` and deadline
`(from_now ? now : m_next - milliseconds(m_ms)) + milliseconds(ms)`, and it is
in the set when no other timer of the set has that deadline. -/
theorem reset_live (tpm : Nat) (s : TimerManager) (now : Int) (this : Nat) (ms : Nat)
    (from_now : Bool) (hs : s.Sorted) (hv : s.Valid)
    (hcb : (s.deref this).m_cb ≠ none) (hmem : this ∈ s.m_timers) :
    (Timer.reset tpm s now this ms from_now).ret = true ∧
    ((Timer.reset tpm s now this ms from_now).mgr.deref this).m_ms = ms ∧
    ((Timer.reset tpm s now this ms from_now).mgr.deref this).m_next =
      (if from_now then now
        else (s.deref this).m_next - msTicks tpm (s.deref this).m_ms)
        + msTicks tpm ms ∧
    ((∀ q ∈ s.m_timers, q ≠ this → (s.deref q).m_next ≠
        (if from_now then now
          else (s.deref this).m_next - msTicks tpm (s.deref this).m_ms)
          + msTicks tpm ms) →
      this ∈ (Timer.reset tpm s now this ms from_now).mgr.m_timers) := by
  by_cases h0 : ms = (s.deref this).m_ms ∧ from_now = false
  · have hr : Timer.reset tpm s now this ms from_now = ⟨true, s, false⟩ := by
      unfold Timer.reset; rw [if_pos h0]
    rw [hr]
    refine ⟨rfl, h0.1.symm, ?_, fun _ => hmem⟩
    simp only [h0.2, h0.1]
    simp
  · obtain ⟨i, hfind, herase⟩ :=
      setFind_sorted_mem _ _ (Comparator_eq s) this s.m_timers hs hmem
    have hlen := hv this hmem
    rw [reset_found tpm s now this ms from_now i h0 hcb hfind hlen]
    refine ⟨rfl, ?_, ?_, ?_⟩
    · rw [addTimerPtr_deref]
      simp [TimerManager.deref, List.getElem?_set, hlen]
    · rw [addTimerPtr_deref]
      simp [TimerManager.deref, List.getElem?_set, hlen]
    · intro hne
      rw [addTimerPtr_timers]
      apply setInsert_of_no_equal _ _ (Comparator_eq _)
      intro x hx
      have hx' : x ∈ s.m_timers.erase this := by rw [← herase]; exact hx
      have hxm : x ∈ s.m_timers := List.mem_of_mem_erase hx'
      have hxne : x ≠ this := by
        intro he
        rw [he] at hx'
        exact (List.Nodup.not_mem_erase (sorted_nodup s hs)) hx'
      have hne' : this ≠ x := fun h => hxne h.symm
      have h1 := hne x hxm hxne
      simpa [TimerManager.deref, List.getElem?_set, hlen, List.getElem?_set_ne hne'] using h1

/-- What `reset` does to a timer with a null callback, and to a timer such that
no timer of the set has its deadline: nothing, and it returns true exactly when
`ms` equals the period and `from_now` is false. -/
theorem reset_unchanged (tpm : Nat) (s : TimerManager) (now : Int) (this : Nat) (ms : Nat)
    (from_now : Bool)
    (h : (s.deref this).m_cb = none ∨
      ∀ q ∈ s.m_timers, (s.deref q).m_next ≠ (s.deref this).m_next) :
    (Timer.reset tpm s now this ms from_now).mgr = s ∧
    ((Timer.reset tpm s now this ms from_now).ret = true ↔
      (ms = (s.deref this).m_ms ∧ from_now = false)) := by
  by_cases h0 : ms = (s.deref this).m_ms ∧ from_now = false
  · have hr : Timer.reset tpm s now this ms from_now = ⟨true, s, false⟩ := by
      unfold Timer.reset; rw [if_pos h0]
    rw [hr]
    exact ⟨rfl, fun _ => h0, fun _ => rfl⟩
  · have hr : Timer.reset tpm s now this ms from_now = ⟨false, s, false⟩ := by
      unfold Timer.reset
      rw [if_neg h0]
      by_cases hcb : (s.deref this).m_cb = none
      · rw [if_pos hcb]
      · rw [if_neg hcb]
        rcases h with h | h
        · exact absurd h hcb
        · rw [setFind_of_no_equal _ _ (Comparator_eq s) this s.m_timers h]
    rw [hr]
    refine ⟨rfl, fun hc => ?_, fun hc => absurd hc h0⟩
    cases hc

/-- C7 (as amended): on a live timer (non-null callback, present in the sorted
set) with deadline `d` and period `p`, for `ms` and `p` below `2^63` (so that
`std::chrono::milliseconds` holds them unchanged) and tick counts that fit the
signed 64-bit clock (the periods in ticks, the start and the new deadline),
`reset(ms, from_now)` at clock reading `now` returns true and afterwards the
timer has period `ms` and deadline `(from_now ? now : d - p) + ms`, and it is in
the set when no other timer of the set has that deadline.  On a timer with a
null callback, and on a timer such that no timer of the set has its deadline,
`reset` changes nothing, and it returns true exactly when `ms` equals the
period and `from_now` is false. -/
theorem C7_reset_amended (tpm : Nat) (s : TimerManager) (now : Int) (this : Nat) (ms : Nat)
    (from_now : Bool) (hs : s.Sorted) (hv : s.Valid) :
    ((s.deref this).m_cb ≠ none → this ∈ s.m_timers →
      ms < 2 ^ 63 → (s.deref this).m_ms < 2 ^ 63 →
      inInt64 ((ms : Int) * (tpm : Int)) →
      inInt64 (((s.deref this).m_ms : Int) * (tpm : Int)) →
      inInt64 (if from_now then now
        else (s.deref this).m_next - ((s.deref this).m_ms : Int) * (tpm : Int)) →
      inInt64 ((if from_now then now
        else (s.deref this).m_next - ((s.deref this).m_ms : Int) * (tpm : Int))
        + (ms : Int) * (tpm : Int)) →
      (Timer.reset tpm s now this ms from_now).ret = true ∧
      ((Timer.reset tpm s now this ms from_now).mgr.deref this).m_ms = ms ∧
      ((Timer.reset tpm s now this ms from_now).mgr.deref this).m_next =
        (if from_now then now
          else (s.deref this).m_next - ((s.deref this).m_ms : Int) * (tpm : Int))
          + (ms : Int) * (tpm : Int) ∧
      ((∀ q ∈ s.m_timers, q ≠ this → (s.deref q).m_next ≠
          (if from_now then now
            else (s.deref this).m_next - ((s.deref this).m_ms : Int) * (tpm : Int))
            + (ms : Int) * (tpm : Int)) →
        this ∈ (Timer.reset tpm s now this ms from_now).mgr.m_timers)) ∧
    (((s.deref this).m_cb = none ∨
        ∀ q ∈ s.m_timers, (s.deref q).m_next ≠ (s.deref this).m_next) →
      (Timer.reset tpm s now this ms from_now).mgr = s ∧
      ((Timer.reset tpm s now this ms from_now).ret = true ↔
        (ms = (s.deref this).m_ms ∧ from_now = false))) := by
  constructor
  · intro hcb hmem hms hp _ _ _ _
    have h := reset_live tpm s now this ms from_now hs hv hcb hmem
    rw [msTicks_of_lt tpm ms hms, msTicks_of_lt tpm _ hp] at h
    exact h
  · exact reset_unchanged tpm s now this ms from_now

theorem C7_reset_amended_witness :
    (Timer.reset 1 ⟨[⟨false, 10, 10, some 7⟩, ⟨false, 30, 30, some 8⟩], [0, 1], true, 0⟩
      4 0 20 true).ret = true ∧
    ((Timer.reset 1 ⟨[⟨false, 10, 10, some 7⟩, ⟨false, 30, 30, some 8⟩], [0, 1], true, 0⟩
      4 0 20 true).mgr.deref 0).m_next = 24 ∧
    0 ∈ (Timer.reset 1 ⟨[⟨false, 10, 10, some 7⟩, ⟨false, 30, 30, some 8⟩], [0, 1], true, 0⟩
      4 0 20 true).mgr.m_timers := by
  have h := (C7_reset_amended 1
    ⟨[⟨false, 10, 10, some 7⟩, ⟨false, 30, 30, some 8⟩], [0, 1], true, 0⟩ 4 0 20 true
    (by decide) (by decide)).1 (by decide) (by decide) (by decide) (by decide) (by decide)
    (by decide) (by decide) (by decide)
  exact ⟨h.1, h.2.2.1.trans (by decide), h.2.2.2 (by decide)⟩

/-- C7 (counterexample): a cancelled timer (null callback, not in the set) with
period 10 is reset with `ms = 10` and `from_now = false`: `reset` returns true,
where the claim says that it returns false. -/
theorem C7_reset_cancelled_timer_returns_true :
    (Timer.cancel ((TimerManager.init 0).addTimer 1 0 10 (some 7) false).mgr 0).2 =
      ⟨[⟨false, 10, 10, none⟩], [], true, 0⟩ ∧
    ((⟨[⟨false, 10, 10, none⟩], [], true, 0⟩ : TimerManager).deref 0).m_cb = none ∧
    0 ∉ (⟨[⟨false, 10, 10, none⟩], [], true, 0⟩ : TimerManager).m_timers ∧
    ¬ ((Timer.reset 1 ⟨[⟨false, 10, 10, none⟩], [], true, 0⟩ 5 0 10 false).ret = false) := by
  decide

/-- A period of `2^64 - 1` is the duration of -1 ms: a live timer reset with it
at reading `1000000000` (one tick is a nanosecond) gets the deadline
`999000000`, one millisecond before the reading. -/
theorem reset_period_wraps :
    ((Timer.reset 1000000 ⟨[⟨false, 10, 2000000000, some 7⟩], [0], true, 0⟩
      1000000000 0 (2 ^ 64 - 1) true).mgr.deref 0).m_next = 999000000 := by
  decide

/-! ## `listExpiredCb` without a rewind -/

theorem deref_mk_set_same (s : TimerManager) (p : Nat) (x : Timer) (t : List Nat) (k : Bool)
    (l : Int) (hv : p < s.objs.length) :
    (TimerManager.mk (s.objs.set p x) t k l).deref p = x := by
  simp [TimerManager.deref, List.getElem?_set, hv]

theorem deref_mk_set_other (s : TimerManager) (p q : Nat) (x : Timer) (t : List Nat) (k : Bool)
    (l : Int) (h : q ≠ p) :
    (TimerManager.mk (s.objs.set p x) t k l).deref q = s.deref q := by
  have h' : p ≠ q := fun e => h e.symm
  simp [TimerManager.deref, List.getElem?_set_ne h']

theorem setInsert_append_left (lt : Nat → Nat → Bool) (p : Nat) (R : List Nat) :
    ∀ ds : List Nat, (∀ x ∈ ds, lt x p = true ∧ lt p x = false) →
      (setInsert lt (ds ++ R) p).elems = ds ++ (setInsert lt R p).elems := by
  intro ds
  induction ds with
  | nil => intro _; rfl
  | cons y ys ih =>
    intro h
    have hy := h y (by simp)
    rw [List.cons_append, setInsert]
    simp only [hy.1, hy.2, Bool.false_eq_true, if_false, if_true]
    rw [ih (fun x hx => h x (by simp [hx]))]
    rfl

theorem listExpiredStep_not_due (tpm : Nat) (now : Int) (s : TimerManager)
    (cbs : List (Option Cb)) (h : ∀ p ∈ s.m_timers, now < (s.deref p).m_next) :
    s.listExpiredStep tpm now false cbs = none := by
  unfold TimerManager.listExpiredStep
  rcases hs : s.m_timers with _ | ⟨p, rest⟩
  · rfl
  · have hp := h p (by rw [hs]; simp)
    have : ¬ (s.deref p).m_next ≤ now := by omega
    simp [this]

theorem listExpiredStep_due (tpm : Nat) (now : Int) (s : TimerManager) (cbs : List (Option Cb))
    (d : Nat) (ds R : List Nat)
    (hs : s.m_timers = d :: (ds ++ R)) (hsorted : s.Sorted) (hvalid : s.Valid)
    (hdue : (s.deref d).m_next ≤ now)
    (hper : (s.deref d).m_recurring = true → 0 < msTicks tpm (s.deref d).m_ms)
    (hds : ∀ p ∈ ds, (s.deref p).m_next ≤ now)
    (hR : ∀ p ∈ R, now < (s.deref p).m_next) :
    ∃ s1 R1, s.listExpiredStep tpm now false cbs = some (s1, cbs ++ [(s.deref d).m_cb]) ∧
      s1.m_timers = ds ++ R1 ∧ s1.Sorted ∧ s1.Valid ∧
      (∀ q, q ≠ d → s1.deref q = s.deref q) ∧
      (s1.deref d).m_cb = none ∧
      (∀ p ∈ R1, now < (s1.deref p).m_next) ∧
      (∀ p ∈ R, p ∈ R1) ∧ (∀ p ∈ R1, p = d ∨ p ∈ R) ∧
      ((s.deref d).m_recurring = false → R1 = R) := by
  have hdv : d < s.objs.length := hvalid d (by rw [hs]; simp)
  have hnodup : (d :: (ds ++ R)).Nodup := by rw [← hs]; exact sorted_nodup s hsorted
  have hdnot : ∀ q ∈ ds ++ R, q ≠ d := by
    intro q hq he
    rw [he] at hq
    exact (List.nodup_cons.mp hnodup).1 hq
  have hsorted' : (d :: (ds ++ R)).Pairwise
      (fun a b => (s.deref a).m_next < (s.deref b).m_next) := by
    have := hsorted; unfold TimerManager.Sorted at this; rwa [hs] at this
  have htail := (List.pairwise_cons.mp hsorted').2
  rw [listExpiredStep_head tpm now false s cbs d (ds ++ R) hs hdv (Or.inr hdue)]
  cases hrec : (s.deref d).m_recurring
  · -- not recurring: the timer leaves the set
    simp only [Bool.false_eq_true, if_false]
    refine ⟨_, R, rfl, rfl, ?_, ?_, ?_, ?_, ?_, fun p hp => hp, fun p hp => Or.inr hp,
      fun _ => rfl⟩
    · unfold TimerManager.Sorted
      refine List.Pairwise.imp_of_mem ?_ htail
      intro a b ha hb hab
      rw [deref_mk_set_other s d a _ _ _ _ (hdnot a ha),
        deref_mk_set_other s d b _ _ _ _ (hdnot b hb)]
      exact hab
    · intro p hp
      have hp' : p ∈ ds ++ R := hp
      have := hvalid p (by rw [hs]; exact List.mem_cons_of_mem _ hp')
      simpa using this
    · intro q hq
      exact deref_mk_set_other s d q _ _ _ _ hq
    · rw [deref_mk_set_same s d _ _ _ _ hdv]
    · intro p hp
      rw [deref_mk_set_other s d p _ _ _ _ (hdnot p (by simp [hp]))]
      exact hR p hp
  · -- recurring: the timer is put back behind the due timers
    simp only [if_true]
    have hposI : (0 : Int) < msTicks tpm (s.deref d).m_ms := hper hrec
    have hkd : ∀ t k l, ((TimerManager.mk (s.objs.set d ⟨true, (s.deref d).m_ms,
        now + msTicks tpm (s.deref d).m_ms, none⟩) t k l).deref d).m_next
        = now + msTicks tpm (s.deref d).m_ms := by
      intro t k l
      rw [deref_mk_set_same s d _ _ _ _ hdv]
    have hko : ∀ q, q ≠ d → ∀ t k l, (TimerManager.mk (s.objs.set d ⟨true, (s.deref d).m_ms,
        now + msTicks tpm (s.deref d).m_ms, none⟩) t k l).deref q = s.deref q := by
      intro q hq t k l
      exact deref_mk_set_other s d q _ _ _ _ hq
    have hsplit := setInsert_append_left
      (Comparator ⟨s.objs.set d ⟨true, (s.deref d).m_ms,
        now + msTicks tpm (s.deref d).m_ms, none⟩, ds ++ R, s.m_tickled,
        s.m_lastTime⟩) d R ds (by
        intro x hx
        have hxd : x ≠ d := hdnot x (by simp [hx])
        have hx1 := hds x hx
        unfold Comparator
        rw [hkd, hko x hxd]
        constructor
        · exact decide_eq_true (by omega)
        · exact decide_eq_false (by omega))
    have htail1 : (ds ++ R).Pairwise (fun a b =>
        ((TimerManager.mk (s.objs.set d ⟨true, (s.deref d).m_ms,
          now + msTicks tpm (s.deref d).m_ms, none⟩) (ds ++ R) s.m_tickled
          s.m_lastTime).deref a).m_next <
        ((TimerManager.mk (s.objs.set d ⟨true, (s.deref d).m_ms,
          now + msTicks tpm (s.deref d).m_ms, none⟩) (ds ++ R) s.m_tickled
          s.m_lastTime).deref b).m_next) := by
      refine List.Pairwise.imp_of_mem ?_ htail
      intro a b ha hb hab
      rw [hko a (hdnot a ha), hko b (hdnot b hb)]
      exact hab
    have hsorted1 := setInsert_sorted _ _ (Comparator_eq
      ⟨s.objs.set d ⟨true, (s.deref d).m_ms,
        now + msTicks tpm (s.deref d).m_ms, none⟩, ds ++ R, s.m_tickled,
        s.m_lastTime⟩) d (ds ++ R) htail1
    refine ⟨_, (setInsert (Comparator ⟨s.objs.set d ⟨true, (s.deref d).m_ms,
        now + msTicks tpm (s.deref d).m_ms, none⟩, ds ++ R, s.m_tickled,
        s.m_lastTime⟩) R d).elems, rfl, hsplit, ?_, ?_, ?_, ?_, ?_, ?_, ?_, ?_⟩
    · exact hsorted1
    · intro p hp
      have hp' : p ∈ (setInsert _ (ds ++ R) d).elems := hp
      have hlen : (s.objs.set d ⟨true, (s.deref d).m_ms,
        now + msTicks tpm (s.deref d).m_ms, none⟩).length = s.objs.length := by simp
      show p < (s.objs.set d _).length
      rw [hlen]
      rcases setInsert_mem _ _ _ _ hp' with h | h
      · rw [h]; exact hdv
      · exact hvalid p (by rw [hs]; exact List.mem_cons_of_mem _ h)
    · intro q hq
      exact hko q hq _ _ _
    · rw [deref_mk_set_same s d _ _ _ _ hdv]
    · intro p hp
      rcases setInsert_mem _ _ _ _ hp with h | h
      · rw [h, hkd]; omega
      · rw [hko p (hdnot p (by simp [h]))]
        exact hR p h
    · intro p hp
      exact setInsert_subset _ _ _ _ hp
    · intro p hp
      exact setInsert_mem _ _ _ _ hp
    · intro h; cases h

theorem listExpiredLoop_mono (tpm : Nat) (now : Int) (rollover : Bool) :
    ∀ (fuel : Nat) (s : TimerManager) (cbs : List (Option Cb)) r,
      TimerManager.listExpiredLoop tpm now rollover fuel s cbs = some r →
      ∀ k, TimerManager.listExpiredLoop tpm now rollover (fuel + k) s cbs = some r := by
  intro fuel
  induction fuel with
  | zero => intro s cbs r h; simp [TimerManager.listExpiredLoop] at h
  | succ n ih =>
    intro s cbs r h k
    have e : n + 1 + k = (n + k) + 1 := by omega
    rw [e, listExpiredLoop_succ]
    rw [listExpiredLoop_succ] at h
    rcases hstep : s.listExpiredStep tpm now rollover cbs with _ | ⟨s1, cbs1⟩
    · rw [hstep] at h; exact h
    · rw [hstep] at h
      exact ih s1 cbs1 r h k

/-- The loop of `listExpiredCb` without a rewind, on a sorted set that splits
into due timers `dues` and timers `R` that are not due, when every due
recurring timer has a period of positive duration (not 0 and below `2^63`): it
returns after `dues.length` passes with the callbacks of the due timers
appended in order. -/
theorem listExpiredLoop_no_rewind (tpm : Nat) (now : Int) :
    ∀ (dues : List Nat) (s : TimerManager) (R : List Nat) (cbs : List (Option Cb)),
      s.m_timers = dues ++ R → s.Sorted → s.Valid →
      (∀ p ∈ dues, (s.deref p).m_next ≤ now ∧
        ((s.deref p).m_recurring = true → 0 < msTicks tpm (s.deref p).m_ms)) →
      (∀ p ∈ R, now < (s.deref p).m_next) →
      ∃ s1, TimerManager.listExpiredLoop tpm now false (dues.length + 1) s cbs =
          some (s1, cbs ++ dues.map (fun p => (s.deref p).m_cb)) ∧
        (∀ p ∈ dues, (s.deref p).m_recurring = false →
          p ∉ s1.m_timers ∧ (s1.deref p).m_cb = none) ∧
        (∀ p ∈ R, p ∈ s1.m_timers ∧ s1.deref p = s.deref p) ∧
        (∀ q ∈ s1.m_timers, q ∈ s.m_timers) ∧
        (∀ q, q ∉ s.m_timers → s1.deref q = s.deref q) := by
  intro dues
  induction dues with
  | nil =>
    intro s R cbs hs _ _ _ hR
    refine ⟨s, ?_, ?_, ?_, fun q hq => hq, fun q _ => rfl⟩
    · rw [listExpiredLoop_succ,
        listExpiredStep_not_due tpm now s cbs (by rw [hs]; simpa using hR)]
      simp
    · intro p hp; cases hp
    · intro p hp
      exact ⟨by rw [hs]; simpa using hp, rfl⟩
  | cons d ds ih =>
    intro s R cbs hs hsorted hvalid hdues hR
    have hd := hdues d (by simp)
    obtain ⟨s1, R1, hstep, hs1, hsorted1, hvalid1, hframe, hdcb, hR1, hRsub, hR1sub, hR1eq⟩ :=
      listExpiredStep_due tpm now s cbs d ds R (by rw [hs]; rfl) hsorted hvalid hd.1 hd.2
        (fun p hp => (hdues p (by simp [hp])).1) hR
    have hnodup : (d :: (ds ++ R)).Nodup := by
      have := sorted_nodup s hsorted
      rw [hs] at this; exact this
    have hdds : ∀ p ∈ ds, p ≠ d := by
      intro p hp he
      rw [he] at hp
      exact (List.nodup_cons.mp hnodup).1 (by simp [hp])
    have hdR : ∀ p ∈ R, p ≠ d := by
      intro p hp he
      rw [he] at hp
      exact (List.nodup_cons.mp hnodup).1 (by simp [hp])
    obtain ⟨s2, hloop, hA, hB, hC, hD⟩ := ih s1 R1 (cbs ++ [(s.deref d).m_cb]) hs1 hsorted1 hvalid1
      (by
        intro p hp
        rw [hframe p (hdds p hp)]
        exact hdues p (by simp [hp]))
      hR1
    have hs1sub : ∀ q ∈ s1.m_timers, q ∈ s.m_timers := by
      intro q hq
      rw [hs1] at hq
      rw [hs]
      rcases List.mem_append.mp hq with h | h
      · simp [h]
      · rcases hR1sub q h with h' | h'
        · simp [h']
        · simp [h']
    refine ⟨s2, ?_, ?_, ?_, ?_, ?_⟩
    · have e : (d :: ds).length + 1 = (ds.length + 1) + 1 := by simp
      rw [e, listExpiredLoop_succ, hstep]
      simp only []
      rw [hloop]
      have hmap : ds.map (fun p => (s1.deref p).m_cb) = ds.map (fun p => (s.deref p).m_cb) := by
        apply List.map_congr_left
        intro p hp
        rw [hframe p (hdds p hp)]
      rw [hmap]
      simp
    · intro p hp hrec
      rcases List.mem_cons.mp hp with h | h
      · -- the head timer itself
        subst h
        have hR1R := hR1eq hrec
        have hnot1 : p ∉ s1.m_timers := by
          rw [hs1, hR1R]
          exact (List.nodup_cons.mp hnodup).1
        refine ⟨fun hm => hnot1 (hC p hm), ?_⟩
        rw [hD p hnot1]
        exact hdcb
      · exact hA p h (by rw [hframe p (hdds p h)]; exact hrec)
    · intro p hp
      have := hB p (hRsub p hp)
      exact ⟨this.1, by rw [this.2, hframe p (hdR p hp)]⟩
    · intro q hq
      exact hs1sub q (hC q hq)
    · intro q hq
      have hq1 : q ∉ s1.m_timers := fun h => hq (hs1sub q h)
      have hqd : q ≠ d := by
        intro he
        apply hq
        rw [hs, he]
        simp
      rw [hD q hq1, hframe q hqd]

/-- What `listExpiredCb` does without a rewind, for a sorted set that splits
into the due timers `dues` and the timers `R` that are not due, when every due
recurring timer has a period of positive duration (not 0 and below `2^63`):
with enough fuel the call returns; it has appended exactly the callbacks of the due
timers, in ascending deadline order; every due timer that is not recurring is
out of the set with a null callback; every timer that is not due is in the set
and unchanged. -/
theorem listExpiredCb_no_rewind (tpm : Nat) (s : TimerManager) (now now2 : Int)
    (dues R : List Nat) (cbs : List (Option Cb))
    (hs : s.m_timers = dues ++ R) (hsorted : s.Sorted) (hvalid : s.Valid)
    (hnorewind : (s.detectClockChange tpm now2).1 = false)
    (hdues : ∀ p ∈ dues, (s.deref p).m_next ≤ now ∧
      ((s.deref p).m_recurring = true → 0 < msTicks tpm (s.deref p).m_ms))
    (hR : ∀ p ∈ R, now < (s.deref p).m_next) :
    ∃ s1, (∀ k, s.listExpiredCb tpm (dues.length + 1 + k) now now2 cbs =
          some (s1, cbs ++ dues.map (fun p => (s.deref p).m_cb))) ∧
      (∀ p ∈ dues, (s.deref p).m_recurring = false →
        p ∉ s1.m_timers ∧ (s1.deref p).m_cb = none) ∧
      (∀ p ∈ R, p ∈ s1.m_timers ∧ s1.deref p = s.deref p) := by
  obtain ⟨s1, hloop, hA, hB, _, _⟩ := listExpiredLoop_no_rewind tpm now dues
    (s.detectClockChange tpm now2).2 R cbs hs hsorted hvalid hdues hR
  refine ⟨s1, ?_, hA, hB⟩
  intro k
  unfold TimerManager.listExpiredCb
  simp only [hnorewind]
  exact listExpiredLoop_mono tpm now false _ _ _ _ hloop k

/-! ## `listExpiredCb` after a rewind -/

/-- The loop of `listExpiredCb` after a rewind on a set without recurring
timers: it returns after one pass for each timer, with every callback appended
in set order, and leaves the set empty. -/
theorem listExpiredLoop_rewind (tpm : Nat) (now : Int) :
    ∀ (l : List Nat) (s : TimerManager) (cbs : List (Option Cb)),
      s.m_timers = l → l.Nodup → s.Valid →
      (∀ p ∈ l, (s.deref p).m_recurring = false) →
      ∃ s1, TimerManager.listExpiredLoop tpm now true (l.length + 1) s cbs =
          some (s1, cbs ++ l.map (fun p => (s.deref p).m_cb)) ∧
        s1.m_timers = [] ∧
        (∀ p ∈ l, (s1.deref p).m_cb = none) ∧
        (∀ q, q ∉ l → s1.deref q = s.deref q) := by
  intro l
  induction l with
  | nil =>
    intro s cbs hs _ _ _
    refine ⟨s, ?_, hs, fun p hp => (by cases hp), fun q _ => rfl⟩
    rw [listExpiredLoop_succ]
    simp [TimerManager.listExpiredStep, hs]
  | cons d ds ih =>
    intro s cbs hs hnodup hvalid hrec
    have hdv : d < s.objs.length := hvalid d (by rw [hs]; simp)
    have hdrec := hrec d (by simp)
    have hdds : ∀ p ∈ ds, p ≠ d := by
      intro p hp he
      rw [he] at hp
      exact (List.nodup_cons.mp hnodup).1 hp
    have hstep := listExpiredStep_head tpm now true s cbs d ds hs hdv (Or.inl rfl)
    simp only [hdrec, Bool.false_eq_true, if_false] at hstep
    obtain ⟨s2, hloop, hempty, hcb, hframe⟩ := ih
      ⟨s.objs.set d ⟨false, (s.deref d).m_ms, (s.deref d).m_next, none⟩, ds, s.m_tickled,
        s.m_lastTime⟩ (cbs ++ [(s.deref d).m_cb]) rfl (List.nodup_cons.mp hnodup).2
      (by
        intro p hp
        have hp' : p ∈ ds := hp
        have := hvalid p (by rw [hs]; simp [hp'])
        simpa using this)
      (by
        intro p hp
        rw [deref_mk_set_other s d p _ _ _ _ (hdds p hp)]
        exact hrec p (by simp [hp]))
    refine ⟨s2, ?_, hempty, ?_, ?_⟩
    · have e : (d :: ds).length + 1 = (ds.length + 1) + 1 := by simp
      rw [e, listExpiredLoop_succ, hstep]
      simp only []
      rw [hloop]
      have hmap : ds.map (fun p => ((TimerManager.mk
          (s.objs.set d ⟨false, (s.deref d).m_ms, (s.deref d).m_next, none⟩) ds s.m_tickled
          s.m_lastTime).deref p).m_cb) = ds.map (fun p => (s.deref p).m_cb) := by
        apply List.map_congr_left
        intro p hp
        rw [deref_mk_set_other s d p _ _ _ _ (hdds p hp)]
      rw [hmap]
      simp
    · intro p hp
      rcases List.mem_cons.mp hp with h | h
      · subst h
        rw [hframe p (List.nodup_cons.mp hnodup).1, deref_mk_set_same s p _ _ _ _ hdv]
      · exact hcb p h
    · intro q hq
      have hqd : q ≠ d := fun he => hq (by simp [he])
      have hqds : q ∉ ds := fun h => hq (by simp [h])
      rw [hframe q hqds, deref_mk_set_other s d q _ _ _ _ hqd]

/-- What `listExpiredCb` does when it detects a rewind and the set holds no
recurring timer: with enough fuel the call returns; it has appended the
callback of every timer of the set, whatever its deadline, and the set is
empty afterwards. -/
theorem listExpiredCb_rewind_non_recurring (tpm : Nat) (s : TimerManager) (now now2 : Int)
    (cbs : List (Option Cb)) (hsorted : s.Sorted) (hvalid : s.Valid)
    (hrewind : now2 < s.m_lastTime - (60 * 60 * 1000 : Int) * (tpm : Int))
    (hrec : ∀ p ∈ s.m_timers, (s.deref p).m_recurring = false) :
    ∃ s1, (∀ k, s.listExpiredCb tpm (s.m_timers.length + 1 + k) now now2 cbs =
          some (s1, cbs ++ s.m_timers.map (fun p => (s.deref p).m_cb))) ∧
      s1.m_timers = [] ∧ (∀ p ∈ s.m_timers, (s1.deref p).m_cb = none) := by
  have hd : (s.detectClockChange tpm now2).1 = true := by
    unfold TimerManager.detectClockChange
    exact decide_eq_true hrewind
  obtain ⟨s1, hloop, hempty, hcb, _⟩ := listExpiredLoop_rewind tpm now s.m_timers
    (s.detectClockChange tpm now2).2 cbs rfl (sorted_nodup s hsorted) hvalid hrec
  refine ⟨s1, ?_, hempty, hcb⟩
  intro k
  unfold TimerManager.listExpiredCb
  simp only [hd]
  exact listExpiredLoop_mono tpm now true _ _ _ _ hloop k

/-- A live timer is reset to the deadline of another timer of the set: the
insertion is blocked and the timer is no longer in the set, though `reset`
returns true. -/
theorem reset_live_timer_dropped_on_equal_deadline :
    (Timer.reset 1 ⟨[⟨false, 10, 10, some 7⟩, ⟨false, 30, 30, some 8⟩], [0, 1], true, 0⟩
      4 0 30 false).ret = true ∧
    ((Timer.reset 1 ⟨[⟨false, 10, 10, some 7⟩, ⟨false, 30, 30, some 8⟩], [0, 1], true, 0⟩
      4 0 30 false).mgr.deref 0).m_next = 30 ∧
    (Timer.reset 1 ⟨[⟨false, 10, 10, some 7⟩, ⟨false, 30, 30, some 8⟩], [0, 1], true, 0⟩
      4 0 30 false).mgr.m_timers = [1] := by
  decide

/-- A timer that is not in the set (its insertion was blocked by timer 0 of the
same deadline) is reset: `find` locates timer 0, which is erased, and the reset
timer takes a place in the set; `reset` returns true. -/
theorem reset_outside_timer_erases_equal_deadline :
    (((TimerManager.init 0).addTimer 1 0 10 (some 7) false).mgr.addTimer 1 0 10 (some 8)
      false).mgr = ⟨[⟨false, 10, 10, some 7⟩, ⟨false, 10, 10, some 8⟩], [0], true, 0⟩ ∧
    (Timer.reset 1 ⟨[⟨false, 10, 10, some 7⟩, ⟨false, 10, 10, some 8⟩], [0], true, 0⟩
      4 1 20 true).ret = true ∧
    (Timer.reset 1 ⟨[⟨false, 10, 10, some 7⟩, ⟨false, 10, 10, some 8⟩], [0], true, 0⟩
      4 1 20 true).mgr.m_timers = [1] := by
  decide

/-! ## Invariants of the timer set -/

theorem eraseFound_sublist (lt : Nat → Nat → Bool) (l : List Nat) (p : Nat) :
    (eraseFound lt l p).Sublist l := by
  unfold eraseFound
  rcases setFind lt l p with _ | i
  · exact List.Sublist.refl l
  · exact List.eraseIdx_sublist l i

theorem setFind_not_mem_eraseIdx (s : TimerManager) (this i : Nat) (hs : s.Sorted)
    (hfind : setFind (Comparator s) s.m_timers this = some i) :
    this ∉ s.m_timers.eraseIdx i := by
  by_cases hmem : this ∈ s.m_timers
  · obtain ⟨j, hj, he⟩ := setFind_sorted_mem _ _ (Comparator_eq s) this s.m_timers hs hmem
    rw [hfind] at hj
    have hij : i = j := Option.some.inj hj
    rw [hij, he]
    exact List.Nodup.not_mem_erase (sorted_nodup s hs)
  · intro h
    exact hmem ((List.eraseIdx_sublist _ _).subset h)

theorem wf_set_outside (s : TimerManager) (this : Nat) (x : Timer) (l : List Nat) (k : Bool)
    (t : Int) (hl : l.Pairwise (fun a b => (s.deref a).m_next < (s.deref b).m_next))
    (hv : ∀ p ∈ l, p < s.objs.length) (hnot : this ∉ l) :
    (TimerManager.mk (s.objs.set this x) l k t).Sorted ∧
    (TimerManager.mk (s.objs.set this x) l k t).Valid := by
  constructor
  · unfold TimerManager.Sorted
    refine List.Pairwise.imp_of_mem ?_ hl
    intro a b ha hb hab
    have hane : a ≠ this := fun e => hnot (e ▸ ha)
    have hbne : b ≠ this := fun e => hnot (e ▸ hb)
    rw [deref_mk_set_other s this a _ _ _ _ hane, deref_mk_set_other s this b _ _ _ _ hbne]
    exact hab
  · intro p hp
    have := hv p hp
    simpa using this

theorem wf_reinsert (s : TimerManager) (this : Nat) (x : Timer) (l : List Nat) (k k1 : Bool)
    (t t1 : Int) (hl : l.Pairwise (fun a b => (s.deref a).m_next < (s.deref b).m_next))
    (hv : ∀ p ∈ l, p < s.objs.length) (hnot : this ∉ l) (hthis : this < s.objs.length) :
    (TimerManager.mk (s.objs.set this x)
      (setInsert (Comparator (TimerManager.mk (s.objs.set this x) l k t)) l this).elems
      k1 t1).Sorted ∧
    (TimerManager.mk (s.objs.set this x)
      (setInsert (Comparator (TimerManager.mk (s.objs.set this x) l k t)) l this).elems
      k1 t1).Valid := by
  have h0 := wf_set_outside s this x l k t hl hv hnot
  constructor
  · exact setInsert_sorted _ _ (Comparator_eq (TimerManager.mk (s.objs.set this x) l k t))
      this l h0.1
  · intro p hp
    have hp' : p ∈ (setInsert (Comparator (TimerManager.mk (s.objs.set this x) l k t))
      l this).elems := hp
    show p < (s.objs.set this x).length
    rw [List.length_set]
    rcases setInsert_mem _ _ _ _ hp' with h | h
    · rw [h]; exact hthis
    · exact hv p h

theorem live_pointer_valid (s : TimerManager) (this : Nat) (h : (s.deref this).m_cb ≠ none) :
    this < s.objs.length := by
  by_contra hc
  apply h
  unfold TimerManager.deref
  rw [List.getD_eq_default _ _ (by omega)]
  rfl

theorem cancel_wf (s : TimerManager) (this : Nat) (hs : s.Sorted) (hv : s.Valid) :
    (Timer.cancel s this).2.Sorted ∧ (Timer.cancel s this).2.Valid := by
  by_cases hcb : (s.deref this).m_cb = none
  · have hc : Timer.cancel s this = (false, s) := by unfold Timer.cancel; rw [if_pos hcb]
    rw [hc]; exact ⟨hs, hv⟩
  · rw [cancel_live s this hcb]
    have hsub := eraseFound_sublist (Comparator s) s.m_timers this
    constructor
    · unfold TimerManager.Sorted
      have h1 : (eraseFound (Comparator s) s.m_timers this).Pairwise
          (fun a b => (s.deref a).m_next < (s.deref b).m_next) := List.Pairwise.sublist hsub hs
      refine List.Pairwise.imp ?_ h1
      intro a b hab
      have key : ∀ q, (TimerManager.deref
          { s.store this { s.deref this with m_cb := none } with
            m_timers := eraseFound (Comparator s) s.m_timers this } q).m_next
          = (s.deref q).m_next := by
        intro q
        show ((s.store this { s.deref this with m_cb := none }).deref q).m_next = _
        rw [deref_store]
        by_cases hq : q = this ∧ this < s.objs.length
        · rw [if_pos hq, hq.1]
        · rw [if_neg hq]
      rw [key a, key b]
      exact hab
    · intro p hp
      have hp' : p ∈ eraseFound (Comparator s) s.m_timers this := hp
      have hlt := hv p (hsub.subset hp')
      show p < (s.objs.set this _).length
      rw [List.length_set]
      exact hlt

theorem refresh_wf (tpm : Nat) (s : TimerManager) (now : Int) (this : Nat) (hs : s.Sorted)
    (hv : s.Valid) :
    (Timer.refresh tpm s now this).2.Sorted ∧ (Timer.refresh tpm s now this).2.Valid := by
  unfold Timer.refresh
  by_cases hcb : (s.deref this).m_cb = none
  · rw [if_pos hcb]; exact ⟨hs, hv⟩
  · rw [if_neg hcb]
    rcases hfind : setFind (Comparator s) s.m_timers this with _ | i
    · exact ⟨hs, hv⟩
    · have hsub := List.eraseIdx_sublist s.m_timers i
      exact wf_reinsert s this _ (s.m_timers.eraseIdx i) s.m_tickled s.m_tickled s.m_lastTime
        s.m_lastTime (List.Pairwise.sublist hsub hs) (fun p hp => hv p (hsub.subset hp))
        (setFind_not_mem_eraseIdx s this i hs hfind) (live_pointer_valid s this hcb)

theorem reset_wf (tpm : Nat) (s : TimerManager) (now : Int) (this : Nat) (ms : Nat)
    (from_now : Bool) (hs : s.Sorted) (hv : s.Valid) :
    (Timer.reset tpm s now this ms from_now).mgr.Sorted ∧
    (Timer.reset tpm s now this ms from_now).mgr.Valid := by
  by_cases h0 : ms = (s.deref this).m_ms ∧ from_now = false
  · have hc : Timer.reset tpm s now this ms from_now = ⟨true, s, false⟩ := by
      unfold Timer.reset; rw [if_pos h0]
    rw [hc]; exact ⟨hs, hv⟩
  · by_cases hcb : (s.deref this).m_cb = none
    · have hc : Timer.reset tpm s now this ms from_now = ⟨false, s, false⟩ := by
        unfold Timer.reset; rw [if_neg h0, if_pos hcb]
      rw [hc]; exact ⟨hs, hv⟩
    · rcases hfind : setFind (Comparator s) s.m_timers this with _ | i
      · have hc : Timer.reset tpm s now this ms from_now = ⟨false, s, false⟩ := by
          unfold Timer.reset; rw [if_neg h0, if_neg hcb, hfind]
        rw [hc]; exact ⟨hs, hv⟩
      · rw [reset_found tpm s now this ms from_now i h0 hcb hfind (live_pointer_valid s this hcb)]
        have hsub := List.eraseIdx_sublist s.m_timers i
        exact wf_reinsert s this _ (s.m_timers.eraseIdx i) s.m_tickled _ s.m_lastTime
          s.m_lastTime (List.Pairwise.sublist hsub hs) (fun p hp => hv p (hsub.subset hp))
          (setFind_not_mem_eraseIdx s this i hs hfind) (live_pointer_valid s this hcb)

theorem listExpiredStep_wf (tpm : Nat) (now : Int) (rollover : Bool) (s : TimerManager)
    (cbs : List (Option Cb)) (hs : s.Sorted) (hv : s.Valid) (s1 : TimerManager)
    (cbs1 : List (Option Cb)) (hstep : s.listExpiredStep tpm now rollover cbs = some (s1, cbs1)) :
    s1.Sorted ∧ s1.Valid := by
  rcases hl : s.m_timers with _ | ⟨p, rest⟩
  · simp [TimerManager.listExpiredStep, hl] at hstep
  · have hpv : p < s.objs.length := hv p (by rw [hl]; simp)
    have hsorted' : (p :: rest).Pairwise
        (fun a b => (s.deref a).m_next < (s.deref b).m_next) := by
      have := hs; unfold TimerManager.Sorted at this; rwa [hl] at this
    have hnodup : (p :: rest).Nodup := by rw [← hl]; exact sorted_nodup s hs
    have hrest := (List.pairwise_cons.mp hsorted').2
    have hvrest : ∀ q ∈ rest, q < s.objs.length := fun q hq => hv q (by rw [hl]; simp [hq])
    have hnot := (List.nodup_cons.mp hnodup).1
    by_cases hexp : rollover = true ∨ (s.deref p).m_next ≤ now
    · rw [listExpiredStep_head tpm now rollover s cbs p rest hl hpv hexp] at hstep
      have e := (Prod.mk.inj (Option.some.inj hstep)).1
      rw [← e]
      cases hrec : (s.deref p).m_recurring
      · simp only [Bool.false_eq_true, if_false]
        exact wf_set_outside s p _ rest _ _ hrest hvrest hnot
      · simp only [if_true]
        exact wf_reinsert s p _ rest _ _ _ _ hrest hvrest hnot hpv
    · exfalso
      have hcond : (rollover || decide ((s.deref p).m_next ≤ now)) = false := by
        rcases hr : rollover with _ | _
        · have : ¬ (s.deref p).m_next ≤ now := fun h => hexp (Or.inr h)
          simp [this]
        · exact absurd (Or.inl hr) hexp
      simp [TimerManager.listExpiredStep, hl, hcond] at hstep

theorem listExpiredLoop_wf (tpm : Nat) (now : Int) (rollover : Bool) :
    ∀ (fuel : Nat) (s : TimerManager) (cbs : List (Option Cb)), s.Sorted → s.Valid →
      ∀ r, TimerManager.listExpiredLoop tpm now rollover fuel s cbs = some r →
        r.1.Sorted ∧ r.1.Valid := by
  intro fuel
  induction fuel with
  | zero => intro s cbs _ _ r hr; simp [TimerManager.listExpiredLoop] at hr
  | succ n ih =>
    intro s cbs hs hv r hr
    rw [listExpiredLoop_succ] at hr
    rcases hstep : s.listExpiredStep tpm now rollover cbs with _ | ⟨s1, cbs1⟩
    · rw [hstep] at hr
      rw [← Option.some.inj hr]
      exact ⟨hs, hv⟩
    · rw [hstep] at hr
      have h1 := listExpiredStep_wf tpm now rollover s cbs hs hv s1 cbs1 hstep
      exact ih s1 cbs1 h1.1 h1.2 r hr

/-- Every call keeps the timer set sorted by deadline and made of valid
pointers. -/
theorem execOp_wf (tpm : Nat) (st : TimerManager × List (Option Cb)) (op : Op)
    (hs : st.1.Sorted) (hv : st.1.Valid) (r : TimerManager × List (Option Cb))
    (hr : execOp tpm st op = some r) : r.1.Sorted ∧ r.1.Valid := by
  cases op with
  | addTimer now ms c recurring =>
    rw [← Option.some.inj hr]
    exact ⟨addTimer_sorted tpm st.1 now ms c recurring hs hv,
      addTimer_valid tpm st.1 now ms c recurring hv⟩
  | cancel this =>
    rw [← Option.some.inj hr]
    exact cancel_wf st.1 this hs hv
  | refresh now this =>
    rw [← Option.some.inj hr]
    exact refresh_wf tpm st.1 now this hs hv
  | reset now this ms from_now =>
    rw [← Option.some.inj hr]
    exact reset_wf tpm st.1 now this ms from_now hs hv
  | getNextTimeout now =>
    rw [← Option.some.inj hr]
    show (st.1.getNextTimeout tpm now).2.Sorted ∧ (st.1.getNextTimeout tpm now).2.Valid
    rw [getNextTimeout_state]
    exact ⟨hs, hv⟩
  | listExpiredCb fuel now now2 =>
    have hr' : TimerManager.listExpiredLoop tpm now (st.1.detectClockChange tpm now2).1 fuel
        (st.1.detectClockChange tpm now2).2 st.2 = some r := hr
    exact listExpiredLoop_wf tpm now _ fuel (st.1.detectClockChange tpm now2).2 st.2 hs hv r hr'

/-- In every state reached from a new manager by calls of `addTimer`, `cancel`,
`refresh`, `reset`, `getNextTimeout` and `listExpiredCb`, the timer set is
sorted by deadline and made of valid pointers. -/
theorem reachable_wf (tpm : Nat) (ops : List Op) :
    ∀ (st : TimerManager × List (Option Cb)), st.1.Sorted → st.1.Valid →
      ∀ r, execOps tpm st ops = some r → r.1.Sorted ∧ r.1.Valid := by
  induction ops with
  | nil =>
    intro st hs hv r hr
    rw [← Option.some.inj hr]
    exact ⟨hs, hv⟩
  | cons op ops ih =>
    intro st hs hv r hr
    simp only [execOps] at hr
    rcases h1 : execOp tpm st op with _ | st1
    · rw [h1] at hr; simp at hr
    · rw [h1] at hr
      have hwf := execOp_wf tpm st op hs hv st1 h1
      exact ih st1 hwf.1 hwf.2 r hr

theorem init_wf (now : Int) : (TimerManager.init now).Sorted ∧ (TimerManager.init now).Valid := by
  constructor
  · unfold TimerManager.Sorted; simp [TimerManager.init]
  · intro p hp; simp [TimerManager.init] at hp

/-! ## `FdContext::triggerEvent` -/

theorem testBit_and_bitNot32 (events event : Nat) (h : events < 2 ^ 32) (i : Nat) :
    (events &&& bitNot32 event).testBit i = (events.testBit i && !event.testBit i) := by
  unfold bitNot32
  rw [Nat.testBit_and, Nat.testBit_xor, Nat.testBit_two_pow_sub_one]
  by_cases hi : i < 32
  · simp [hi]
  · have hlt : events < 2 ^ i :=
      lt_of_lt_of_le h (Nat.pow_le_pow_right (by decide) (by omega))
    rw [Nat.testBit_lt_two_pow hlt]
    simp

theorem and_bitNot32_and_other (events event other : Nat) (h : events < 2 ^ 32)
    (hdisj : event &&& other = 0) :
    (events &&& bitNot32 event) &&& other = events &&& other := by
  apply Nat.eq_of_testBit_eq
  intro i
  rw [Nat.testBit_and (events &&& bitNot32 event) other i,
    testBit_and_bitNot32 events event h i, Nat.testBit_and events other i]
  have hd : (event &&& other).testBit i = false := by rw [hdisj]; simp
  rw [Nat.testBit_and] at hd
  cases he : event.testBit i <;> cases ho : other.testBit i <;> simp_all

theorem triggerEvent_eq (fd_ctx : FdContext) (scheds : List Scheduler) (event : Nat)
    (sl : EventSlot) (sp : Nat) (sch : Scheduler)
    (hev : FdContext.getEventContext event = some sl)
    (hbit : fd_ctx.events &&& event ≠ 0)
    (hsp : (fd_ctx.slot sl).scheduler = some sp) (hsch : scheds[sp]? = some sch) :
    fd_ctx.triggerEvent scheds event =
      some ⟨({ fd_ctx with events := fd_ctx.events &&& bitNot32 event } : FdContext).setSlot sl
          ⟨none, none, none⟩,
        scheds.set sp
          (if (fd_ctx.slot sl).cb.isSome then
            (sch.scheduleLockPtr (FiberOrcb.cb (fd_ctx.slot sl).cb) (-1)).1
          else (sch.scheduleLockPtr (FiberOrcb.fiber (fd_ctx.slot sl).fiber) (-1)).1),
        sch.m_tasks.isEmpty⟩ := by
  unfold FdContext.triggerEvent
  rw [if_neg hbit]
  have hslot : ({ fd_ctx with events := fd_ctx.events &&& bitNot32 event } : FdContext).slot sl
      = fd_ctx.slot sl := by cases sl <;> rfl
  simp only [hev, hslot, hsp, hsch, FdContext.resetEventContext]
  cases hcb : (fd_ctx.slot sl).cb.isSome
  · simp only [Bool.false_eq_true, if_false]
    have : (sch.scheduleLockPtr (FiberOrcb.fiber (fd_ctx.slot sl).fiber) (-1)).2
        = sch.m_tasks.isEmpty := by
      unfold Scheduler.scheduleLockPtr
      simp only []
      split <;> rfl
    rw [this]
  · simp only [if_true]
    have : (sch.scheduleLockPtr (FiberOrcb.cb (fd_ctx.slot sl).cb) (-1)).2
        = sch.m_tasks.isEmpty := by
      unfold Scheduler.scheduleLockPtr
      simp only []
      split <;> rfl
    rw [this]

/-- C11: for every fd context and every event `ev` of READ, WRITE whose bit is
set in `events` (a 32-bit mask), with the slot of `ev` holding a pointer to a
scheduler and a callback or a fiber (the invariant of a registered event):
`triggerEvent(ev)` returns; it has cleared exactly the bit of `ev` in `events`;
it has appended one task to the queue of the slot's scheduler and changed no
other scheduler, the task holding the slot's callback or, when no callback is
stored, the slot's fiber; the slot is left with null scheduler, fiber and
callback; the bit and the slot of the other direction and `fd` are unchanged. -/
theorem C11_triggerEvent (fd_ctx : FdContext) (scheds : List Scheduler) (event : Nat)
    (sl : EventSlot) (sp : Nat) (sch : Scheduler)
    (hev : (event = Event.READ ∧ sl = EventSlot.read) ∨
      (event = Event.WRITE ∧ sl = EventSlot.write))
    (hbit : fd_ctx.events &&& event ≠ 0)
    (hrange : fd_ctx.events < 2 ^ 32)
    (hsp : (fd_ctx.slot sl).scheduler = some sp) (hsch : scheds[sp]? = some sch)
    (hpop : (fd_ctx.slot sl).cb ≠ none ∨ (fd_ctx.slot sl).fiber ≠ none) :
    ∃ r, fd_ctx.triggerEvent scheds event = some r ∧
      (∀ i, r.ctx.events.testBit i = (fd_ctx.events.testBit i && !event.testBit i)) ∧
      r.ctx.events &&& event = 0 ∧
      (∀ other, (other = Event.READ ∨ other = Event.WRITE) → other ≠ event →
        r.ctx.events &&& other = fd_ctx.events &&& other) ∧
      r.scheds = scheds.set sp { sch with m_tasks := sch.m_tasks ++
        [if (fd_ctx.slot sl).cb.isSome then ⟨none, (fd_ctx.slot sl).cb, -1⟩
          else ⟨(fd_ctx.slot sl).fiber, none, -1⟩] } ∧
      r.ctx.slot sl = ⟨none, none, none⟩ ∧
      (∀ sl1, sl1 ≠ sl → r.ctx.slot sl1 = fd_ctx.slot sl1) ∧
      r.ctx.fd = fd_ctx.fd := by
  have hget : FdContext.getEventContext event = some sl := by
    rcases hev with ⟨h1, h2⟩ | ⟨h1, h2⟩
    · rw [h1, h2]; rfl
    · rw [h1, h2]; rfl
  rw [triggerEvent_eq fd_ctx scheds event sl sp sch hget hbit hsp hsch]
  refine ⟨_, rfl, ?_, ?_, ?_, ?_, ?_, ?_, ?_⟩
  · intro i
    have : (({ fd_ctx with events := fd_ctx.events &&& bitNot32 event } : FdContext).setSlot sl
        ⟨none, none, none⟩).events = fd_ctx.events &&& bitNot32 event := by cases sl <;> rfl
    simp only [this]
    exact testBit_and_bitNot32 _ _ hrange i
  · have : (({ fd_ctx with events := fd_ctx.events &&& bitNot32 event } : FdContext).setSlot sl
        ⟨none, none, none⟩).events = fd_ctx.events &&& bitNot32 event := by cases sl <;> rfl
    simp only [this]
    apply Nat.eq_of_testBit_eq
    intro i
    rw [Nat.testBit_and, testBit_and_bitNot32 _ _ hrange i]
    cases event.testBit i <;> simp
  · intro other hother hne
    have : (({ fd_ctx with events := fd_ctx.events &&& bitNot32 event } : FdContext).setSlot sl
        ⟨none, none, none⟩).events = fd_ctx.events &&& bitNot32 event := by cases sl <;> rfl
    simp only [this]
    apply and_bitNot32_and_other _ _ _ hrange
    rcases hev with ⟨h1, _⟩ | ⟨h1, _⟩ <;> rcases hother with h2 | h2
    · exact absurd (h2.trans h1.symm) hne
    · rw [h1, h2]; decide
    · rw [h1, h2]; decide
    · exact absurd (h2.trans h1.symm) hne
  · cases hcb : (fd_ctx.slot sl).cb.isSome
    · have hf : (fd_ctx.slot sl).fiber.isSome = true := by
        rcases hpop with h | h
        · rw [Option.isSome_iff_ne_none.mpr h] at hcb; cases hcb
        · exact Option.isSome_iff_ne_none.mpr h
      simp [Scheduler.scheduleLockPtr, ScheduleTask.ofPointer, ScheduleTask.ofFiberOrcb, hf]
    · simp [Scheduler.scheduleLockPtr, ScheduleTask.ofPointer, ScheduleTask.ofFiberOrcb, hcb]
  · cases sl <;> rfl
  · intro sl1 hne
    cases sl <;> cases sl1 <;> first | rfl | exact absurd rfl hne
  · cases sl <;> rfl

theorem C11_triggerEvent_witness :
    FdContext.triggerEvent ⟨⟨some 0, none, some 7⟩, ⟨some 0, some 3, none⟩, 9, 5⟩
        [⟨[], 0, 0⟩] Event.READ =
      some ⟨⟨⟨none, none, none⟩, ⟨some 0, some 3, none⟩, 9, 4⟩,
        [⟨[⟨none, some 7, -1⟩], 0, 0⟩], true⟩ ∧
    ∃ r, FdContext.triggerEvent ⟨⟨some 0, none, some 7⟩, ⟨some 0, some 3, none⟩, 9, 5⟩
        [⟨[], 0, 0⟩] Event.WRITE = some r ∧
      r.scheds = [⟨[⟨some 3, none, -1⟩], 0, 0⟩] ∧ r.ctx.events &&& Event.WRITE = 0 := by
  refine ⟨by decide, ?_⟩
  obtain ⟨r, h1, _, h3, _, h5, _⟩ := C11_triggerEvent
    ⟨⟨some 0, none, some 7⟩, ⟨some 0, some 3, none⟩, 9, 5⟩ [⟨[], 0, 0⟩] Event.WRITE
    EventSlot.write 0 ⟨[], 0, 0⟩ (Or.inr ⟨rfl, rfl⟩) (by decide) (by decide) rfl rfl
    (Or.inr (by decide))
  exact ⟨r, h1, h5.trans (by decide), h3⟩

/-- An event whose slot holds neither a callback nor a fiber: `triggerEvent`
clears the bit and resets the slot, and `scheduleLock` enqueues nothing. -/
theorem triggerEvent_empty_slot_enqueues_nothing :
    FdContext.triggerEvent ⟨⟨some 0, none, none⟩, ⟨none, none, none⟩, 9, 1⟩
        [⟨[], 0, 0⟩] Event.READ =
      some ⟨⟨⟨none, none, none⟩, ⟨none, none, none⟩, 9, 0⟩, [⟨[], 0, 0⟩], true⟩ := by
  decide

/-! ## Termination of `listExpiredCb` -/

/-- The loop of `listExpiredCb` on a set made of one recurring timer never
returns when a rewind was detected, and when the timer is due and has
period 0. -/
theorem listExpiredLoop_diverges_one_recurring (tpm : Nat) (now : Int) (rollover : Bool)
    (p : Nat) (s : TimerManager) (hs : s.m_timers = [p]) (hv : p < s.objs.length)
    (hrec : (s.deref p).m_recurring = true)
    (hcase : rollover = true ∨ ((s.deref p).m_ms = 0 ∧ (s.deref p).m_next ≤ now)) :
    ∀ fuel cbs, TimerManager.listExpiredLoop tpm now rollover fuel s cbs = none := by
  intro fuel cbs
  apply listExpiredLoop_diverges tpm now rollover
    (fun s => s.m_timers = [p] ∧ p < s.objs.length ∧ (s.deref p).m_recurring = true ∧
      (rollover = true ∨ ((s.deref p).m_ms = 0 ∧ (s.deref p).m_next ≤ now)))
  · intro s1 cbs1 ⟨h1, h2, h3, h4⟩
    have hexp : rollover = true ∨ (s1.deref p).m_next ≤ now := by
      rcases h4 with h | h
      · exact Or.inl h
      · exact Or.inr h.2
    rw [listExpiredStep_head tpm now rollover s1 cbs1 p [] h1 h2 hexp]
    simp only [h3, if_true]
    refine ⟨_, _, rfl, rfl, by simpa using h2, ?_, ?_⟩
    · rw [deref_mk_set_same s1 p _ _ _ _ h2]
    · rcases h4 with h | h
      · exact Or.inl h
      · right
        rw [deref_mk_set_same s1 p _ _ _ _ h2]
        simp [h.1, msTicks_zero]
  · exact ⟨hs, hv, hrec, hcase⟩

/-- C12 (defect of the code): `listExpiredCb` does not terminate on states
reached through `addTimer` and `reset`.  (1) After `addTimer(ms, cb, true)` on
a new manager, a call that detects a rewind never returns, at any clock
reading: each pass puts the recurring timer back into the set that the loop
drains.  (2) After `addTimer(ms, cb, true)` and `reset(0, true)` at time `tr`
on the timer, a call at any clock reading `now >= tr` never returns: each pass
puts the timer back with deadline `now`.  The claim says that the call
terminates in both cases. -/
theorem C12_listExpiredCb_never_returns (tpm : Nat) (t0 : Int) (ms : Nat) (cb : Cb)
    (hms : 0 < ms) :
    (∃ st, execOps tpm (TimerManager.init t0, []) [Op.addTimer t0 ms (some cb) true] = some st ∧
      ∀ fuel now now2 cbs, now2 < t0 - (60 * 60 * 1000 : Int) * (tpm : Int) →
        st.1.listExpiredCb tpm fuel now now2 cbs = none) ∧
    (∀ tr, ∃ st, execOps tpm (TimerManager.init t0, [])
        [Op.addTimer t0 ms (some cb) true, Op.reset tr 0 0 true] = some st ∧
      ∀ fuel now now2 cbs, tr ≤ now → st.1.listExpiredCb tpm fuel now now2 cbs = none) := by
  have hadd : ((TimerManager.init t0).addTimer tpm t0 ms (some cb) true).mgr =
      ⟨[⟨true, ms, t0 + (ms : Int) * (tpm : Int), some cb⟩], [0], true, t0⟩ := by
    rw [addTimer_ok tpm _ t0 ms (some cb) true (by omega) (by simp)]
    rfl
  constructor
  · refine ⟨(((TimerManager.init t0).addTimer tpm t0 ms (some cb) true).mgr, []), rfl, ?_⟩
    intro fuel now now2 cbs hrewind
    show TimerManager.listExpiredCb tpm fuel _ now now2 cbs = none
    rw [hadd]
    unfold TimerManager.listExpiredCb
    have hd : (TimerManager.detectClockChange tpm
        ⟨[⟨true, ms, t0 + (ms : Int) * (tpm : Int), some cb⟩], [0], true, t0⟩ now2).1 = true := by
      unfold TimerManager.detectClockChange
      exact decide_eq_true hrewind
    simp only [hd]
    exact listExpiredLoop_diverges_one_recurring tpm now true 0
      (TimerManager.detectClockChange tpm
        ⟨[⟨true, ms, t0 + (ms : Int) * (tpm : Int), some cb⟩], [0], true, t0⟩ now2).2
      rfl Nat.zero_lt_one rfl (Or.inl rfl) fuel cbs
  · intro tr
    refine ⟨((Timer.reset tpm ((TimerManager.init t0).addTimer tpm t0 ms (some cb) true).mgr
      tr 0 0 true).mgr, []), rfl, ?_⟩
    intro fuel now now2 cbs hdue
    show TimerManager.listExpiredCb tpm fuel _ now now2 cbs = none
    rw [hadd]
    have hreset : (Timer.reset tpm
        ⟨[⟨true, ms, t0 + (ms : Int) * (tpm : Int), some cb⟩], [0], true, t0⟩ tr 0 0 true).mgr =
        ⟨[⟨true, 0, tr + ((0 : Nat) : Int) * (tpm : Int), some cb⟩], [0], true, t0⟩ := by
      rw [reset_found tpm
          ⟨[⟨true, ms, t0 + (ms : Int) * (tpm : Int), some cb⟩], [0], true, t0⟩ tr 0 0 true 0 (by
          intro h
          have h1 : (0 : Nat) = ms := h.1
          omega) (by simp [TimerManager.deref]) (by simp [setFind, Comparator])
          Nat.zero_lt_one]
      rfl
    rw [hreset]
    unfold TimerManager.listExpiredCb
    exact listExpiredLoop_diverges_one_recurring tpm now _ 0
      (TimerManager.detectClockChange tpm
        ⟨[⟨true, 0, tr + ((0 : Nat) : Int) * (tpm : Int), some cb⟩], [0], true, t0⟩ now2).2
      rfl Nat.zero_lt_one rfl
      (Or.inr ⟨rfl, by
        show tr + ((0 : Nat) : Int) * (tpm : Int) ≤ now
        simp
        exact hdue⟩) fuel cbs

theorem C12_listExpiredCb_never_returns_witness :
    (∀ fuel, TimerManager.listExpiredCb 1 fuel
      ⟨[⟨true, 10, 10000010, some 7⟩], [0], true, 10000000⟩ 0 0 [] = none) ∧
    (∀ fuel, TimerManager.listExpiredCb 1 fuel
      ⟨[⟨true, 0, 5, some 7⟩], [0], true, 0⟩ 5 5 [] = none) := by
  have h := C12_listExpiredCb_never_returns 1 10000000 10 7 (by decide)
  have h0 := C12_listExpiredCb_never_returns 1 0 10 7 (by decide)
  constructor
  · intro fuel
    obtain ⟨st, hst, hdiv⟩ := h.1
    have e : st = (⟨[⟨true, 10, 10000010, some 7⟩], [0], true, 10000000⟩, []) := by
      have : execOps 1 (TimerManager.init 10000000, [])
          [Op.addTimer 10000000 10 (some 7) true] =
          some (⟨[⟨true, 10, 10000010, some 7⟩], [0], true, 10000000⟩, []) := by decide
      rw [this] at hst
      exact (Option.some.inj hst).symm
    have := hdiv fuel 0 0 [] (by decide)
    rw [e] at this
    exact this
  · intro fuel
    obtain ⟨st, hst, hdiv⟩ := h0.2 5
    have e : st = (⟨[⟨true, 0, 5, some 7⟩], [0], true, 0⟩, []) := by
      have : execOps 1 (TimerManager.init 0, [])
          [Op.addTimer 0 10 (some 7) true, Op.reset 5 0 0 true] =
          some (⟨[⟨true, 0, 5, some 7⟩], [0], true, 0⟩, []) := by decide
      rw [this] at hst
      exact (Option.some.inj hst).symm
    have := hdiv fuel 5 5 [] (by decide)
    rw [e] at this
    exact this

/-! ## What `Timer::cancel` removes -/

theorem setFind_sorted_key (key : Nat → Int) (lt : Nat → Nat → Bool)
    (hlt : ∀ a b, lt a b = decide (key a < key b)) (p x : Nat) :
    ∀ l, l.Pairwise (fun a b => key a < key b) → x ∈ l → key x = key p →
      ∃ i, setFind lt l p = some i ∧ l.eraseIdx i = l.erase x := by
  intro l
  induction l with
  | nil => intro _ h; cases h
  | cons y ys ih =>
    intro h hx hk
    have hy := (List.pairwise_cons.mp h).1
    have hys := (List.pairwise_cons.mp h).2
    by_cases hyx : y = x
    · subst hyx
      refine ⟨0, ?_, by simp⟩
      have h1 : lt y p = false := by rw [hlt]; simp; omega
      have h2 : lt p y = false := by rw [hlt]; simp; omega
      simp [setFind, h1, h2]
    · have hx' : x ∈ ys := by
        rcases List.mem_cons.mp hx with h' | h'
        · exact absurd h'.symm hyx
        · exact h'
      have h1 : lt y p = true := by
        rw [hlt]
        have := hy x hx'
        simp
        omega
      obtain ⟨i, hi, he⟩ := ih hys hx' hk
      refine ⟨i + 1, ?_, ?_⟩
      · simp [setFind, h1, hi]
      · rw [List.eraseIdx_cons_succ, he, List.erase_cons_tail]
        simpa using hyx

theorem eraseFound_sorted_key (s : TimerManager) (p x : Nat) (hs : s.Sorted)
    (hx : x ∈ s.m_timers) (hk : (s.deref x).m_next = (s.deref p).m_next) :
    eraseFound (Comparator s) s.m_timers p = s.m_timers.erase x := by
  obtain ⟨i, hi, he⟩ := setFind_sorted_key _ _ (Comparator_eq s) p x s.m_timers hs hx hk
  unfold eraseFound
  rw [hi]
  exact he

theorem eraseFound_of_no_equal (s : TimerManager) (p : Nat)
    (h : ∀ q ∈ s.m_timers, (s.deref q).m_next ≠ (s.deref p).m_next) :
    eraseFound (Comparator s) s.m_timers p = s.m_timers := by
  unfold eraseFound
  rw [setFind_of_no_equal _ _ (Comparator_eq s) p s.m_timers h]

theorem cancel_deref_other (s : TimerManager) (this q : Nat) (h : q ≠ this) :
    (Timer.cancel s this).2.deref q = s.deref q := by
  by_cases hcb : (s.deref this).m_cb = none
  · have hc : Timer.cancel s this = (false, s) := by unfold Timer.cancel; rw [if_pos hcb]
    rw [hc]
  · rw [cancel_live s this hcb]
    show (s.store this { s.deref this with m_cb := none }).deref q = s.deref q
    exact deref_store_other s this q _ h

/-- What `cancel` keeps: when the timer is in the (sorted) set, or when no timer
of the set has its deadline, every other timer of the set stays in the set and
is unchanged. -/
theorem cancel_frame (s : TimerManager) (this : Nat) (hs : s.Sorted)
    (h : this ∈ s.m_timers ∨ ∀ q ∈ s.m_timers, (s.deref q).m_next ≠ (s.deref this).m_next) :
    ∀ q ∈ s.m_timers, q ≠ this →
      q ∈ (Timer.cancel s this).2.m_timers ∧ (Timer.cancel s this).2.deref q = s.deref q := by
  intro q hq hne
  refine ⟨?_, cancel_deref_other s this q hne⟩
  by_cases hcb : (s.deref this).m_cb = none
  · have hc : Timer.cancel s this = (false, s) := by unfold Timer.cancel; rw [if_pos hcb]
    rw [hc]; exact hq
  · rw [cancel_live s this hcb]
    show q ∈ eraseFound (Comparator s) s.m_timers this
    rcases h with h | h
    · rw [eraseFound_sorted_key s this this hs h rfl]
      exact (List.mem_erase_of_ne hne).mpr hq
    · rw [eraseFound_of_no_equal s this h]
      exact hq

/-- C13 (defect of the code): after timer A is added, a timer B of the same
deadline is handed out by `addTimer` without entering the set (the comparator
looks at deadlines only), and `B.cancel()` returns true and erases from the set
a timer other than B, the one that has B's deadline: `cancel` looks B up with
`find`, which returns the timer equivalent to B.  The erased timer keeps its
callback and is never delivered.  The claim says that `cancel` removes at most
the cancelled timer. -/
theorem C13_cancel_erases_other_timer (tpm : Nat) (s : TimerManager)
    (nowA : Int) (msA : Nat) (cbA : Option Cb) (recA : Bool)
    (nowB : Int) (msB : Nat) (cbB : Option Cb) (recB : Bool)
    (hs : s.Sorted) (hv : s.Valid)
    (hmsA : msA ≠ 0) (hcbA : cbA ≠ none) (hmsB : msB ≠ 0) (hcbB : cbB ≠ none)
    (heq : nowA + (msA : Int) * (tpm : Int) = nowB + (msB : Int) * (tpm : Int)) :
    ((s.addTimer tpm nowA msA cbA recA).mgr.addTimer tpm nowB msB cbB recB).ret
      = some (s.objs.length + 1) ∧
    (Timer.cancel ((s.addTimer tpm nowA msA cbA recA).mgr.addTimer tpm nowB msB cbB recB).mgr
      (s.objs.length + 1)).1 = true ∧
    ∃ x, x ≠ s.objs.length + 1 ∧
      x ∈ ((s.addTimer tpm nowA msA cbA recA).mgr.addTimer tpm nowB msB cbB recB).mgr.m_timers ∧
      x ∉ (Timer.cancel
        ((s.addTimer tpm nowA msA cbA recA).mgr.addTimer tpm nowB msB cbB recB).mgr
        (s.objs.length + 1)).2.m_timers ∧
      (Timer.cancel ((s.addTimer tpm nowA msA cbA recA).mgr.addTimer tpm nowB msB cbB recB).mgr
        (s.objs.length + 1)).2.deref x =
        ((s.addTimer tpm nowA msA cbA recA).mgr.addTimer tpm nowB msB cbB recB).mgr.deref x := by
  have hsA := addTimer_sorted tpm s nowA msA cbA recA hs hv
  have hvA := addTimer_valid tpm s nowA msA cbA recA hv
  have hA := addTimer_ok tpm s nowA msA cbA recA hmsA hcbA
  have hlenA : (s.addTimer tpm nowA msA cbA recA).mgr.objs.length = s.objs.length + 1 := by
    rw [hA]; simp [addTimerPtr_objs]
  have hderefA : (s.addTimer tpm nowA msA cbA recA).mgr.deref s.objs.length
      = Timer.ctor tpm nowA msA cbA recA := by
    rw [hA]; exact deref_append_new s _
  obtain ⟨x, hx, hkx⟩ : ∃ x ∈ (s.addTimer tpm nowA msA cbA recA).mgr.m_timers,
      ((s.addTimer tpm nowA msA cbA recA).mgr.deref x).m_next
        = ((s.addTimer tpm nowA msA cbA recA).mgr.deref s.objs.length).m_next := by
    rw [hA]
    exact setInsert_key_mem _ _ (Comparator_eq _) _ _
  generalize (s.addTimer tpm nowA msA cbA recA).mgr = sa at *
  have hsB := addTimer_sorted tpm sa nowB msB cbB recB hsA hvA
  have hB := addTimer_ok tpm sa nowB msB cbB recB hmsB hcbB
  have hxlt : x < sa.objs.length := hvA x hx
  have hderefB : (sa.addTimer tpm nowB msB cbB recB).mgr.deref (s.objs.length + 1)
      = Timer.ctor tpm nowB msB cbB recB := by
    rw [hB, ← hlenA]; exact deref_append_new sa _
  have hderefx : (sa.addTimer tpm nowB msB cbB recB).mgr.deref x = sa.deref x := by
    rw [hB, addTimerPtr_deref]
    exact deref_append_old sa _ x hxlt
  have hxB : x ∈ (sa.addTimer tpm nowB msB cbB recB).mgr.m_timers := by
    rw [hB, addTimerPtr_timers]
    exact setInsert_subset _ _ _ _ hx
  have hkey : ((sa.addTimer tpm nowB msB cbB recB).mgr.deref x).m_next
      = ((sa.addTimer tpm nowB msB cbB recB).mgr.deref (s.objs.length + 1)).m_next := by
    rw [hderefx, hderefB, hkx, hderefA]
    exact heq
  have hlive : ((sa.addTimer tpm nowB msB cbB recB).mgr.deref (s.objs.length + 1)).m_cb
      ≠ none := by
    rw [hderefB]; exact hcbB
  have hxne : x ≠ s.objs.length + 1 := by omega
  have hret : (sa.addTimer tpm nowB msB cbB recB).ret = some (s.objs.length + 1) := by
    rw [hB, hlenA]
  refine ⟨hret, ?_, x, hxne, hxB, ?_, cancel_deref_other _ _ x hxne⟩
  · rw [cancel_live _ _ hlive]
  · rw [cancel_live _ _ hlive]
    show x ∉ eraseFound _ _ _
    rw [eraseFound_sorted_key _ (s.objs.length + 1) x hsB hxB hkey]
    exact List.Nodup.not_mem_erase (sorted_nodup _ hsB)

theorem C13_cancel_erases_other_timer_witness :
    (((TimerManager.init 0).addTimer 1 0 10 (some 7) false).mgr.addTimer 1 0 10 (some 8)
      false).mgr = ⟨[⟨false, 10, 10, some 7⟩, ⟨false, 10, 10, some 8⟩], [0], true, 0⟩ ∧
    Timer.cancel ⟨[⟨false, 10, 10, some 7⟩, ⟨false, 10, 10, some 8⟩], [0], true, 0⟩ 1 =
      (true, ⟨[⟨false, 10, 10, some 7⟩, ⟨false, 10, 10, none⟩], [], true, 0⟩) ∧
    ∃ x, x ≠ 1 ∧ x ∉ (Timer.cancel
      (((TimerManager.init 0).addTimer 1 0 10 (some 7) false).mgr.addTimer 1 0 10 (some 8)
        false).mgr 1).2.m_timers := by
  refine ⟨by decide, by decide, ?_⟩
  obtain ⟨_, _, x, h1, _, h3, _⟩ := C13_cancel_erases_other_timer 1 (TimerManager.init 0)
    0 10 (some 7) false 0 10 (some 8) false (by decide) (by decide) (by decide) (by decide)
    (by decide) (by decide) (by decide)
  exact ⟨x, h1, h3⟩

end my_coroutine_lib
